import Mathlib

/-!
# bucket-restore: version history, state reconstruction and action derivation

A shallow embedding of the packages `awsrestore/history` and `gcprestore/history`
(with the sorting helpers of `history/versions` and `history/generations`) and of the
restore drivers and workers of `appcmds` (decision phase, partition of the actions, requests
sent to the providers), followed by theorems about them.

Conventions.
* A Go `time.Time` is an instant: an integer count of nanoseconds measured from the zero
  time, so `IsZero` is equality with `0`, `Before` is `<` and `After` is `>`.
* Go `int`-based enumerations (`PathStatus`, `Action`) are integers with named constants,
  so that values outside the enumeration exist, as in the source.
* Go slices are lists; `int64` fields that are only stored and compared are integers.
* Where the source computes with `int`s (`divideActions`), every arithmetic result is wrapped
  around into 64 bits by `wrapInt`, a division by zero and an out-of-range slice expression
  are the outcome `panics`, and the loop takes fuel: a result is stated as returned for every
  fuel above the number of actions.
* A provider is a parameter: any function from a state and a request to an answer (an error
  or a reply) and a new state. A worker's channel is the list of the results it sends, in
  order; the requests it sends are recorded in the `Session`.
* A field the S3 SDK returns behind a pointer is an `Option`, `none` being the nil pointer;
  a function that dereferences one without a check panics on `none`, which is the result
  `none` of `doCreate` and of `runActionsStep`, and the flag in the result of `runActions`.
* The library routine `sort.Slice` is a parameter `sortSlice`; what the library promises
  about it (the result is a permutation of the input, in an order compatible with `less`)
  is the predicate `SortsBy`. A concrete instance, `insertionSlice`, is provided so that
  every definition can be evaluated.
-/

set_option linter.dupNamespace false

namespace BucketRestore

/-- A Go `time.Time`, as an instant counted from the zero time. -/
abbrev Time := Int

/-- The method `Before` of `time.Time`. -/
def Time.Before (t u : Time) : Bool := decide (t < u)

/-- The method `After` of `time.Time`. -/
def Time.After (t u : Time) : Bool := decide (u < t)

/-- The method `IsZero` of `time.Time`. -/
def Time.IsZero (t : Time) : Bool := decide (t = 0)

/-- The library check `sort.SliceIsSorted`: no element is `less` than its predecessor. -/
def SliceIsSorted {α : Type} (less : α → α → Bool) : List α → Bool
  | [] => true
  | [_] => true
  | a :: b :: rest => !(less b a) && SliceIsSorted less (b :: rest)

/-- What the library promises of `sort.Slice` called with `less`: the slice afterwards is a
rearrangement of the slice before, and no later element is `less` than an earlier one. -/
def SortsBy {α : Type} (less : α → α → Bool) (sortSlice : List α → List α) : Prop :=
  ∀ l : List α, (sortSlice l).Perm l ∧ (sortSlice l).Pairwise (fun a b => less b a = false)

/-- The method `SortIfNeeded` (of `Versions` and of `Generations`): sort only when the
collection is not already sorted by the same function. -/
def SortIfNeeded {α : Type} (sortSlice : List α → List α) (less : α → α → Bool)
    (gs : List α) : List α :=
  if !(SliceIsSorted less gs) then sortSlice gs else gs

/-- Insertion of one element after the elements that are `less` than it and before the first
element that is not, so that it stays ahead of the elements it ties with. -/
def insertSlice {α : Type} (less : α → α → Bool) (x : α) : List α → List α
  | [] => [x]
  | y :: ys => if less y x then y :: insertSlice less x ys else x :: y :: ys

/-- An executable instance of `sort.Slice`: insertion sort (what the library runs on short
slices); elements that tie keep their order. -/
def insertionSlice {α : Type} (less : α → α → Bool) : List α → List α
  | [] => []
  | x :: xs => insertSlice less x (insertionSlice less xs)

/-! ## The S3 side: `awsrestore/history` -/

namespace Aws

/-- The struct `versions.Version`: a version or delete marker of an object. -/
structure Version where
  Key : String
  ID : String
  LastModified : Time
  IsLatest : Bool
  IsDeleteMarker : Bool
  ETag : String
  Size : Int
deriving DecidableEq, Repr

/-- The zero value of `versions.Version`. -/
def Version.zero : Version := ⟨"", "", 0, false, false, "", 0⟩

/-- The type `PathStatus`, an `int`. -/
abbrev PathStatus := Int

/-- A file that does not exist. -/
abbrev NOT_EXISTENT : PathStatus := 0
/-- A file that exists at a given point. -/
abbrev EXISTS : PathStatus := 1
/-- A file that existed but has been deleted. -/
abbrev DELETED : PathStatus := 2

/-- The struct `PathState`: a status and the embedded version. -/
structure PathState where
  PathStatus : PathStatus
  Version : Version
deriving DecidableEq, Repr

/-- The zero value of `PathState` (what `var res PathState` holds). -/
def PathState.zero : PathState := ⟨NOT_EXISTENT, Version.zero⟩

/-- The comparison of `SortByLastModifiedAsc`. -/
def ascOrder (a b : Version) : Bool := Time.Before a.LastModified b.LastModified

/-- The method `SortByLastModifiedAsc`. -/
def SortByLastModifiedAsc (sortSlice : List Version → List Version)
    (gs : List Version) : List Version :=
  SortIfNeeded sortSlice ascOrder gs

/-- The function `StateOfVersion`. -/
def StateOfVersion (v : Version) : PathState :=
  if v.IsDeleteMarker then ⟨DELETED, v⟩ else ⟨EXISTS, v⟩

/-- The function `StateOfVersionAtTime`. -/
def StateOfVersionAtTime (v : Version) (t : Time) : PathState :=
  if v.IsDeleteMarker && Time.Before v.LastModified t then ⟨DELETED, v⟩ else ⟨EXISTS, v⟩

/-- The loop of `StateDiffAtTime`: `scanDown versions t (i+1)` is the loop about to test
index `i`, `scanDown versions t 0` is the loop left without a `break`. -/
def scanDown (versions : List Version) (t : Time) : Nat → PathState
  | 0 => PathState.zero
  | i + 1 =>
    if Time.After t (versions.getD i Version.zero).LastModified then
      StateOfVersionAtTime (versions.getD i Version.zero) t
    else scanDown versions t i

/-- The function `StateDiffAtTime`: the state at `t` and the last known state. -/
def StateDiffAtTime (sortSlice : List Version → List Version) (versions : List Version)
    (t : Time) : PathState × PathState :=
  let nGens := versions.length
  if nGens = 0 then (⟨NOT_EXISTENT, Version.zero⟩, ⟨NOT_EXISTENT, Version.zero⟩)
  else
    let versions := SortByLastModifiedAsc sortSlice versions
    let firstVersion := versions.getD 0 Version.zero
    let lastVersion := versions.getD (nGens - 1) Version.zero
    let lastVersionState := StateOfVersion lastVersion
    if Time.After t lastVersion.LastModified then
      (StateOfVersionAtTime lastVersion t, lastVersionState)
    else if Time.Before t firstVersion.LastModified then
      (⟨NOT_EXISTENT, firstVersion⟩, lastVersionState)
    else (scanDown versions t nGens, lastVersionState)

/-- The type `Action`, an `int`. -/
abbrev Action := Int

/-- Copy an old version onto the key. -/
abbrev CREATE : Action := 0
/-- Delete the object. -/
abbrev DELETE : Action := 1
/-- Leave the object alone. -/
abbrev NO_ACTION : Action := 2

/-- The struct `FileOperand`. -/
structure FileOperand where
  Key : String
  Version : String
  Size : Int
deriving DecidableEq, Repr

/-- The struct `FileAction`. -/
structure FileAction where
  Action : Action
  Source : FileOperand
  UnmodifiedPreCondition : Time
deriving DecidableEq, Repr

/-- The function `ActionForStateChange`. A field left out of a Go composite literal has its
zero value, so an action built without `UnmodifiedPreCondition` carries the zero time. -/
def ActionForStateChange (frm dst : PathState) : FileAction :=
  let source : FileOperand := ⟨dst.Version.Key, dst.Version.ID, frm.Version.Size⟩
  if frm.PathStatus = DELETED then
    if dst.PathStatus = EXISTS then
      ⟨CREATE, ⟨source.Key, source.Version, dst.Version.Size⟩, 0⟩
    else ⟨NO_ACTION, source, 0⟩
  else if frm.PathStatus = EXISTS then
    if dst.PathStatus = DELETED ∨ dst.PathStatus = NOT_EXISTENT then
      ⟨DELETE, ⟨source.Key, frm.Version.ID, source.Size⟩, frm.Version.LastModified⟩
    else if dst.Version ≠ frm.Version ∧ dst.Version.ETag ≠ frm.Version.ETag then
      ⟨CREATE, source, frm.Version.LastModified⟩
    else ⟨NO_ACTION, source, 0⟩
  else ⟨NO_ACTION, source, 0⟩

/-- The live version `v1` of `a.txt`, modified at 10. -/
def v1 : Version := ⟨"a.txt", "v1", 10, false, false, "e1", 5⟩

/-- The delete marker `v2` of `a.txt`, modified at 20. -/
def v2 : Version := ⟨"a.txt", "v2", 20, false, true, "", 0⟩

/-- The live version `v3` of `a.txt`, modified at 30. -/
def v3 : Version := ⟨"a.txt", "v3", 30, true, false, "e3", 7⟩

/-- The history of `a.txt` in scenarios S1 to S3, as a listing returns it (versions first,
delete markers after). -/
def historyOfA : List Version := [v3, v1, v2]

/-- A live version `v4` of `a.txt` with the content of `v1`, modified at 40: what a copy of
`v1` onto `a.txt` adds to the history. -/
def v4 : Version := ⟨"a.txt", "v4", 40, true, false, "e1", 5⟩

/-- The history of `a.txt` in scenarios S1 to S3, sorted by ascending `LastModified`. -/
def sortedHistoryOfA : List Version := [v1, v2, v3]

/-- A live version of `a.txt` modified at 10. -/
def tiedLive : Version := ⟨"a.txt", "w1", 10, false, false, "e1", 5⟩

/-- A delete marker of `a.txt` with the same `LastModified` as `tiedLive`. -/
def tiedMarker : Version := ⟨"a.txt", "w2", 10, true, true, "", 0⟩

/-- A history of `a.txt` that holds a delete marker only. -/
def markerOnly : List Version := [⟨"a.txt", "m1", 20, true, true, "", 0⟩]

/-- The version `v` of `vs` was modified strictly before `t`, and no version of `vs`
modified strictly before `t` was modified later than `v`. -/
def IsLatestBefore (vs : List Version) (t : Time) (v : Version) : Prop :=
  v ∈ vs ∧ v.LastModified < t ∧
    ∀ u ∈ vs, u.LastModified < t → u.LastModified ≤ v.LastModified

end Aws

/-! ## The GCS side: `gcprestore/history` -/

namespace Gcp

/-- Modelled from the spec: the declaration of `generations.Generation` (a wrapper of the
storage library's object attributes) is not among the sources. The fields are the ones the
sources read: the numeric generation, the object name, the MD5 digest, the creation time and
the deletion time (the zero time while the generation is live). -/
structure Generation where
  Generation : Int
  Name : String
  MD5 : List UInt8
  Created : Time
  Deleted : Time

deriving instance DecidableEq for Gcp.Generation

deriving instance Repr for Gcp.Generation

/-- The zero value of `Generation`. -/
def Generation.zero : Gcp.Generation := ⟨0, "", [], 0, 0⟩

/-- The type `PathStatus`, an `int`. -/
abbrev PathStatus := Int

/-- A file that does not exist. -/
abbrev NOT_EXISTENT : PathStatus := 0
/-- A file that exists at a given point. -/
abbrev EXISTS : PathStatus := 1
/-- A file that existed but has been deleted. -/
abbrev DELETED : PathStatus := 2

/-- The struct `PathState`. -/
structure PathState where
  PathStatus : PathStatus
  Generation : Int
  Name : String
  MD5 : List UInt8
deriving DecidableEq, Repr

/-- The zero value of `PathState` (what `var res PathState` holds). -/
def PathState.zero : PathState := ⟨NOT_EXISTENT, 0, "", []⟩

/-- The comparison of `SortByCreatedDateAsc`. -/
def ascOrder (a b : Generation) : Bool := Time.Before a.Created b.Created

/-- The method `SortByCreatedDateAsc`. -/
def SortByCreatedDateAsc (sortSlice : List Generation → List Generation)
    (gs : List Generation) : List Generation :=
  SortIfNeeded sortSlice ascOrder gs

/-- The function `StateOfGeneration`. -/
def StateOfGeneration (g : Generation) : PathState :=
  if !(Time.IsZero g.Deleted) then ⟨DELETED, g.Generation, g.Name, g.MD5⟩
  else ⟨EXISTS, g.Generation, g.Name, g.MD5⟩

/-- The function `StateOfGenerationAtTime`. -/
def StateOfGenerationAtTime (g : Generation) (t : Time) : PathState :=
  if !(Time.IsZero g.Deleted) && Time.Before g.Deleted t then
    ⟨DELETED, g.Generation, g.Name, g.MD5⟩
  else ⟨EXISTS, g.Generation, g.Name, g.MD5⟩

/-- The loop of `StateDiffAtTime`: `scanDown gens t (i+1)` is the loop about to test index
`i`, `scanDown gens t 0` is the loop left without a `break`. -/
def scanDown (gens : List Generation) (t : Time) : Nat → PathState
  | 0 => PathState.zero
  | i + 1 =>
    if Time.After t (gens.getD i Generation.zero).Created then
      StateOfGenerationAtTime (gens.getD i Generation.zero) t
    else scanDown gens t i

/-- The function `StateDiffAtTime`: the state at `t` and the last known state. -/
def StateDiffAtTime (sortSlice : List Generation → List Generation) (gens : List Generation)
    (t : Time) : PathState × PathState :=
  let nGens := gens.length
  if nGens = 0 then (⟨NOT_EXISTENT, 0, "", []⟩, ⟨NOT_EXISTENT, 0, "", []⟩)
  else
    let gens := SortByCreatedDateAsc sortSlice gens
    let firstGen := gens.getD 0 Generation.zero
    let lastGen := gens.getD (nGens - 1) Generation.zero
    let lastGenState := StateOfGeneration lastGen
    if Time.After t lastGen.Created then
      (StateOfGenerationAtTime lastGen t, lastGenState)
    else if Time.Before t firstGen.Created then
      (⟨NOT_EXISTENT, 0, firstGen.Name, []⟩, lastGenState)
    else (scanDown gens t nGens, lastGenState)

/-- The type `Action`, an `int`. -/
abbrev Action := Int

/-- Copy an old generation onto the name. -/
abbrev CREATE : Action := 0
/-- Delete the object. -/
abbrev DELETE : Action := 1
/-- Leave the object alone. -/
abbrev NO_ACTION : Action := 2

/-- The struct `FileOperand`. -/
structure FileOperand where
  Name : String
  Generation : Int
deriving DecidableEq, Repr

/-- The struct `FileAction`; a `GenerationPreCondition` of `0` means no pre-condition. -/
structure FileAction where
  Action : Action
  Source : FileOperand
  GenerationPreCondition : Int
deriving DecidableEq, Repr

/-- The function `ActionForStateChange`; `bytes.Equal` is equality of the byte lists. -/
def ActionForStateChange (frm dst : PathState) : FileAction :=
  let source : FileOperand := ⟨dst.Name, dst.Generation⟩
  if frm.PathStatus = DELETED then
    if dst.PathStatus = EXISTS then ⟨CREATE, source, 0⟩
    else ⟨NO_ACTION, source, 0⟩
  else if frm.PathStatus = EXISTS then
    if dst.PathStatus = DELETED ∨ dst.PathStatus = NOT_EXISTENT then
      ⟨DELETE, ⟨source.Name, frm.Generation⟩, frm.Generation⟩
    else if dst.Generation ≠ frm.Generation ∧ ¬ (dst.MD5 = frm.MD5) then
      ⟨CREATE, source, frm.Generation⟩
    else ⟨NO_ACTION, source, 0⟩
  else ⟨NO_ACTION, source, 0⟩

/-- A live generation 100 of `a.txt`, created at 10. -/
def g100 : Gcp.Generation := ⟨100, "a.txt", [88], 10, 0⟩

/-- A generation 200 of `a.txt`, created at 20 and deleted at 40. -/
def g200 : Gcp.Generation := ⟨200, "a.txt", [89], 20, 40⟩

/-- The generation `g` of `gens` was created strictly before `t`, and no generation of `gens`
created strictly before `t` was created later than `g`. -/
def IsLatestBefore (gens : List Gcp.Generation) (t : Time) (g : Gcp.Generation) : Prop :=
  g ∈ gens ∧ g.Created < t ∧ ∀ u ∈ gens, u.Created < t → u.Created ≤ g.Created

end Gcp

/-! ## The executor's partition: `divideActions` and `divideActionsGCP` -/

/-- How a run of a Go function ends: it returns a value, it panics, or the fuel given to the
model of one of its loops is used up before the loop is left. -/
inductive Outcome (β : Type) where
  | returns (b : β)
  | panics
  | outOfFuel
deriving DecidableEq, Repr

/-- The largest Go `int` (64 bits). -/
def maxInt : Int := 9223372036854775807

/-- The value a Go `int` (64 bits) takes for the mathematical result `x` of an addition, a
subtraction or a division: `x` wrapped around into the range from `-2^63` to `2^63 - 1`. -/
def wrapInt (x : Int) : Int :=
  (x + 9223372036854775808) % 18446744073709551616 - 9223372036854775808

/-- The Go division of two `int`s: it panics on a zero divisor and truncates towards zero. -/
def goDiv (a b : Int) : Option Int :=
  if b = 0 then none else some (wrapInt (Int.tdiv a b))

/-- The slice expression `actions[i:stop]`: it panics unless `0 ≤ i ≤ stop` and `stop` is
within the slice (the source only slices up to the length). -/
def sliceOf {α : Type} (actions : List α) (i stop : Int) : Option (List α) :=
  if 0 ≤ i ∧ i ≤ stop ∧ stop ≤ (actions.length : Int) then
    some ((actions.drop i.toNat).take (stop - i).toNat)
  else none

/-- The loop of `divideActions`, `for i := 0; i < nActions; i += chunkSize`, with `fuel`
bounding the number of times its condition is tested; `stop` is the source's `end`. -/
def divideLoop {α : Type} (actions : List α) (nActions chunkSize : Int) :
    Nat → Int → List (List α) → Outcome (List (List α))
  | 0, _, _ => Outcome.outOfFuel
  | fuel + 1, i, divided =>
    if i < nActions then
      let stop := wrapInt (i + chunkSize)
      let stop := if stop > nActions then nActions else stop
      match sliceOf actions i stop with
      | none => Outcome.panics
      | some chunk =>
        divideLoop actions nActions chunkSize fuel (wrapInt (i + chunkSize)) (divided ++ [chunk])
    else Outcome.returns divided

/-- The function `divideActions` of `rollback_aws.go`; `rollback_gcp.go` repeats it word for
word as `divideActionsGCP` on its own action type, so the element type is a parameter. -/
def divideActions {α : Type} (fuel : Nat) (actions : List α) (parts : Int) :
    Outcome (List (List α)) :=
  let nActions : Int := actions.length
  match goDiv (wrapInt (wrapInt (nActions + parts) - 1)) parts with
  | none => Outcome.panics
  | some chunkSize => divideLoop actions nActions chunkSize fuel 0 []

/-- One action: delete `a.txt`, whose current version is `v3`. -/
def sampleAction : Aws.FileAction := ⟨Aws.DELETE, ⟨"a.txt", "v3", 7⟩, 30⟩

/-- Two actions. -/
def twoActions : List Aws.FileAction := List.replicate 2 sampleAction

/-- Five actions. -/
def fiveActions : List Aws.FileAction := List.replicate 5 sampleAction

/-- The thousand actions of scenario S5. -/
def thousandActions : List Aws.FileAction := List.replicate 1000 sampleAction

/-- The function `divideActionsGCP`. -/
def divideActionsGCP (fuel : Nat) (actions : List Gcp.FileAction) (parts : Int) :
    Outcome (List (List Gcp.FileAction)) :=
  divideActions fuel actions parts

/-! ## The restore drivers: decisions and number of parts -/

/-- The decision loop of `doRestoreAWS`, run on the values of the map `allGens` in the order
the `range` statement visits them, from the actions collected and the `noAction` counter (a
`uint64`, so an increment wraps around at `2^64`) so far. -/
def doRestoreAWSDecisions (sortSlice : List Aws.Version → List Aws.Version) (timestamp : Time) :
    List (List Aws.Version) → List Aws.FileAction × Nat → List Aws.FileAction × Nat
  | [], acc => acc
  | fileGens :: rest, (actions, noAction) =>
    let fileGens := Aws.SortByLastModifiedAsc sortSlice fileGens
    let states := Aws.StateDiffAtTime sortSlice fileGens timestamp
    let action := Aws.ActionForStateChange states.2 states.1
    if action.Action ≠ Aws.NO_ACTION then
      doRestoreAWSDecisions sortSlice timestamp rest (actions ++ [action], noAction)
    else
      doRestoreAWSDecisions sortSlice timestamp rest
        (actions, (noAction + 1) % 18446744073709551616)

/-- The decision loop of `doRestoreGCP`; its `noAction` counter is an `int64`. -/
def doRestoreGCPDecisions (sortSlice : List Gcp.Generation → List Gcp.Generation)
    (timestamp : Time) :
    List (List Gcp.Generation) → List Gcp.FileAction × Int → List Gcp.FileAction × Int
  | [], acc => acc
  | fileGens :: rest, (actions, noAction) =>
    let fileGens := Gcp.SortByCreatedDateAsc sortSlice fileGens
    let states := Gcp.StateDiffAtTime sortSlice fileGens timestamp
    let action := Gcp.ActionForStateChange states.2 states.1
    if action.Action ≠ Gcp.NO_ACTION then
      doRestoreGCPDecisions sortSlice timestamp rest (actions ++ [action], noAction)
    else
      doRestoreGCPDecisions sortSlice timestamp rest (actions, wrapInt (noAction + 1))

/-- The number of parts `doRestoreAWS` and `doRestoreGCP` hand to the executor:
`parts := 1; if nActions > 4 { parts = *maxConcurrencyFlag }`. -/
def doRestoreParts (nActions maxConcurrencyFlag : Int) : Int :=
  if nActions > 4 then maxConcurrencyFlag else 1

/-! ## The executor on the S3 side -/

/-- The constant `FiveGibibytes`. -/
def FiveGibibytes : Int := 1024 * 1024 * 1024 * 5

/-- The method `ToSourceURL` of the S3 `FileOperand`; `queryEscape` stands for the library's
`url.QueryEscape`. -/
def Aws.FileOperand.ToSourceURL (queryEscape : String → String) (fo : Aws.FileOperand)
    (bucketName : String) : String :=
  bucketName ++ "/" ++ queryEscape fo.Key ++ "?versionId=" ++ queryEscape fo.Version

/-- The SDK's `s3.CopyObjectInput`, with the fields `doCreate` sets; `none` is a field left
unset. -/
structure CopyObjectInput where
  Bucket : String
  Key : String
  CopySource : String
  CopySourceIfUnmodifiedSince : Option Time
deriving DecidableEq, Repr

/-- The SDK's `s3manager.CopyInput`, with the fields `doCreate` sets. -/
structure CopyInput where
  Bucket : String
  Key : String
  CopySource : String
deriving DecidableEq, Repr

/-- The SDK's `s3.DeleteObjectInput`: the two fields `doDelete` sets and the field `VersionId`
of the SDK's struct, which selects a stored version for removal. -/
structure DeleteObjectInput where
  Bucket : String
  Key : String
  VersionId : Option String
deriving DecidableEq, Repr

/-- A request to S3: `client.CopyObject`, the multi-part `copier.Copy`, or
`client.DeleteObject`. -/
inductive S3Request where
  | CopyObject (input : CopyObjectInput)
  | Copy (input : CopyInput)
  | DeleteObject (input : DeleteObjectInput)
deriving DecidableEq, Repr

/-- What the source reads of a successful copy: the SDK's outputs hold `VersionId` and `ETag`
behind pointers, and `none` is a nil pointer (for `CopyObject`, a nil `CopyObjectResult` or a
nil `ETag` in it). -/
structure S3Reply where
  VersionId : Option String
  ETag : Option String
deriving DecidableEq, Repr

/-- A provider seen from a worker: the provider's own state, of any type, and the requests
sent to it so far. -/
structure Session (σ ρ : Type) where
  state : σ
  sent : List ρ

/-- One call to the provider: `client` answers a request, in a state, with an error or a
reply, and moves to a new state; the request is recorded. -/
def Session.call {σ ρ β : Type} (client : σ → ρ → Except String β × σ) (s : Session σ ρ)
    (request : ρ) : Except String β × Session σ ρ :=
  ((client s.state request).1, ⟨(client s.state request).2, s.sent ++ [request]⟩)

/-- The struct `CopyResult`. -/
structure CopyResult where
  Key : String
  VersionId : String
  ETag : String
deriving DecidableEq, Repr

/-- The zero value of `CopyResult`. -/
def CopyResult.zero : CopyResult := ⟨"", "", ""⟩

/-- The composite literal `CopyResult{Key: ..., VersionId: *copy.VersionId, ETag: *copy...ETag}`
of `doCreate`: the two dereferences have no nil check, so a nil pointer makes it panic
(`none`). -/
def copyResultOf (key : String) (copy : S3Reply) : Option CopyResult :=
  match copy.VersionId, copy.ETag with
  | some versionId, some etag => some ⟨key, versionId, etag⟩
  | _, _ => none

/-- The function `doCreate`. Its result is `none` when it panics, and otherwise the pair it
returns; an `error` is `none` for `nil` and `some` message otherwise. -/
def doCreate {σ : Type} (queryEscape : String → String)
    (client : σ → S3Request → Except String S3Reply × σ) (s : Session σ S3Request)
    (bucketName : String) (action : Aws.FileAction) :
    Option (CopyResult × Option String) × Session σ S3Request :=
  let matchUnmodified : Option Time :=
    if !(Time.IsZero action.UnmodifiedPreCondition) then some action.UnmodifiedPreCondition
    else none
  if action.Source.Size < FiveGibibytes then
    match s.call client (S3Request.CopyObject
        ⟨bucketName, action.Source.Key, action.Source.ToSourceURL queryEscape bucketName,
          matchUnmodified⟩) with
    | (Except.error err, s') => (some (CopyResult.zero, some ("copying object: " ++ err)), s')
    | (Except.ok copy, s') =>
      ((copyResultOf action.Source.Key copy).map (fun res => (res, none)), s')
  else
    match s.call client (S3Request.Copy
        ⟨bucketName, action.Source.Key, action.Source.ToSourceURL queryEscape bucketName⟩) with
    | (Except.error err, s') => (some (CopyResult.zero, some ("copying object: " ++ err)), s')
    | (Except.ok copy, s') =>
      ((copyResultOf action.Source.Key copy).map (fun res => (res, none)), s')

/-- The function `doDelete`. -/
def doDelete {σ : Type} (client : σ → S3Request → Except String S3Reply × σ)
    (s : Session σ S3Request) (bucketName : String) (action : Aws.FileAction) :
    Option String × Session σ S3Request :=
  match s.call client (S3Request.DeleteObject ⟨bucketName, action.Source.Key, none⟩) with
  | (Except.error err, s') => (some err, s')
  | (Except.ok _, s') => (none, s')

/-- The struct `RunActionResultAWS`. -/
structure RunActionResultAWS where
  Action : Aws.FileAction
  NewObj : CopyResult
  Err : Option String
deriving DecidableEq, Repr

/-- The body of the loop of `runActions`: the result sent on the channel for one action, or
`none` when `doCreate` panics and nothing is sent. -/
def runActionsStep {σ : Type} (queryEscape : String → String)
    (client : σ → S3Request → Except String S3Reply × σ) (s : Session σ S3Request)
    (bucketName : String) (action : Aws.FileAction) :
    Option RunActionResultAWS × Session σ S3Request :=
  if action.Action = Aws.CREATE then
    match doCreate queryEscape client s bucketName action with
    | (none, s') => (none, s')
    | (some (_, some err), s') =>
      (some ⟨action, CopyResult.zero,
        some ("creating object \x27" ++ action.Source.Key ++ "\x27: " ++ err)⟩, s')
    | (some (newObject, none), s') => (some ⟨action, newObject, none⟩, s')
  else if action.Action = Aws.DELETE then
    match doDelete client s bucketName action with
    | (some err, s') =>
      (some ⟨action, CopyResult.zero,
        some ("deleting object \x27" ++ action.Source.Key ++ "\x27: " ++ err)⟩, s')
    | (none, s') => (some ⟨action, CopyResult.zero, none⟩, s')
  else (some ⟨action, CopyResult.zero, none⟩, s)

/-- The function `runActions`: the results the worker sends on the channel, in the order it
sends them, whether it panicked (a panic ends the worker, and with it the program, before
anything is sent for the action at hand or for the following ones), and the session
afterwards. -/
def runActions {σ : Type} (queryEscape : String → String)
    (client : σ → S3Request → Except String S3Reply × σ) (s : Session σ S3Request)
    (bucketName : String) :
    List Aws.FileAction → (List RunActionResultAWS × Bool) × Session σ S3Request
  | [] => (([], false), s)
  | action :: rest =>
    match runActionsStep queryEscape client s bucketName action with
    | (none, s') => (([], true), s')
    | (some res, s') =>
      let later := runActions queryEscape client s' bucketName rest
      ((res :: later.1.1, later.1.2), later.2)

/-! ## The executor on the GCS side -/

/-- The library's `storage.Conditions`, with the field the source sets. -/
structure Conditions where
  GenerationMatch : Int
deriving DecidableEq, Repr

/-- The library's `storage.ObjectHandle`: the object name, the generation selected by
`Generation` (`none` for the live object) and the conditions attached by `If`. -/
structure ObjectHandle where
  Name : String
  gen : Option Int
  conds : Option Conditions
deriving DecidableEq, Repr

/-- The call `bucket.Object(name)`. -/
def BucketObject (name : String) : ObjectHandle := ⟨name, none, none⟩

/-- The method `Generation` of an object handle. -/
def ObjectHandle.Generation (o : ObjectHandle) (gen : Int) : ObjectHandle :=
  ⟨o.Name, some gen, o.conds⟩

/-- The method `If` of an object handle. -/
def ObjectHandle.If (o : ObjectHandle) (conds : Conditions) : ObjectHandle :=
  ⟨o.Name, o.gen, some conds⟩

/-- A request to GCS: the run of a copier from `src` to `dst`, or the deletion of `obj`. -/
inductive GcsRequest where
  | Copy (dst src : ObjectHandle)
  | Delete (obj : ObjectHandle)
deriving DecidableEq, Repr

/-- The function `doCreateGCP`; the attributes of the new object are a `Generation`. -/
def doCreateGCP {σ : Type} (client : σ → GcsRequest → Except String Gcp.Generation × σ)
    (s : Session σ GcsRequest) (action : Gcp.FileAction) :
    Except String Gcp.Generation × Session σ GcsRequest :=
  let toObject := BucketObject action.Source.Name
  let fromObject := toObject.Generation action.Source.Generation
  let toObject :=
    if action.GenerationPreCondition ≠ 0 then toObject.If ⟨action.GenerationPreCondition⟩
    else toObject
  s.call client (GcsRequest.Copy toObject fromObject)

/-- The function `doDeleteGCP`. -/
def doDeleteGCP {σ : Type} (client : σ → GcsRequest → Except String Gcp.Generation × σ)
    (s : Session σ GcsRequest) (action : Gcp.FileAction) :
    Option String × Session σ GcsRequest :=
  match s.call client (GcsRequest.Delete
      ((BucketObject action.Source.Name).If ⟨action.GenerationPreCondition⟩)) with
  | (Except.error err, s') => (some err, s')
  | (Except.ok _, s') => (none, s')

/-- The struct `RunActionResultGCP`. -/
structure RunActionResultGCP where
  Action : Gcp.FileAction
  NewObj : Option Gcp.Generation
  Err : Option String
deriving DecidableEq, Repr

/-- The body of the loop of `runActionsGCP`. -/
def runActionsGCPStep {σ : Type} (client : σ → GcsRequest → Except String Gcp.Generation × σ)
    (s : Session σ GcsRequest) (action : Gcp.FileAction) :
    RunActionResultGCP × Session σ GcsRequest :=
  if action.Action = Gcp.CREATE then
    match doCreateGCP client s action with
    | (Except.error err, s') =>
      (⟨action, none,
        some ("creating object \x27" ++ action.Source.Name ++ "\x27: " ++ err)⟩, s')
    | (Except.ok newObject, s') => (⟨action, some newObject, none⟩, s')
  else if action.Action = Gcp.DELETE then
    match doDeleteGCP client s action with
    | (some err, s') =>
      (⟨action, none,
        some ("deleting object \x27" ++ action.Source.Name ++ "\x27: " ++ err)⟩, s')
    | (none, s') => (⟨action, none, none⟩, s')
  else (⟨action, none, none⟩, s)

/-- The function `runActionsGCP`. -/
def runActionsGCP {σ : Type} (client : σ → GcsRequest → Except String Gcp.Generation × σ)
    (s : Session σ GcsRequest) : List Gcp.FileAction →
    List RunActionResultGCP × Session σ GcsRequest
  | [] => ([], s)
  | action :: rest =>
    let step := runActionsGCPStep client s action
    let later := runActionsGCP client step.2 rest
    (step.1 :: later.1, later.2)

/-- The unmodified-since condition a request to S3 carries, if any: only `s3.CopyObjectInput`
has a field for one. -/
def S3Request.unmodifiedSince : S3Request → Option Time
  | S3Request.CopyObject input => input.CopySourceIfUnmodifiedSince
  | S3Request.Copy _ => none
  | S3Request.DeleteObject _ => none

/-- Whether a request to S3 is the single-part `CopyObject`. -/
def S3Request.isCopyObject : S3Request → Bool
  | S3Request.CopyObject _ => true
  | _ => false

/-- Whether a request to S3 is the multi-part `Copy`. -/
def S3Request.isCopy : S3Request → Bool
  | S3Request.Copy _ => true
  | _ => false

/-- Whether an answer of the provider is an error. -/
def failed {β : Type} : Except String β → Bool
  | Except.error _ => true
  | Except.ok _ => false

/-- A provider of S3 that refuses every deletion and answers every copy with version `v9`;
its state counts the requests. -/
def refusingDeletes (n : Nat) : S3Request → Except String S3Reply × Nat
  | S3Request.DeleteObject _ => (Except.error "denied", n + 1)
  | _ => (Except.ok ⟨some "v9", some "e1"⟩, n + 1)

/-- A provider of S3 that answers every request with success, a copy with an ETag and a nil
`VersionId` (a reply without a version ID); its state counts the requests. -/
def withoutVersioning (n : Nat) : S3Request → Except String S3Reply × Nat
  | _ => (Except.ok ⟨none, some "e1"⟩, n + 1)

/-- An action that copies version `v1` (6 GiB) onto `a.txt`, under the pre-condition 30. -/
def largeCreate : Aws.FileAction := ⟨Aws.CREATE, ⟨"a.txt", "v1", 6442450944⟩, 30⟩

/-- An action that copies version `v1` (5 bytes) onto `a.txt`, under the pre-condition 30. -/
def smallCreate : Aws.FileAction := ⟨Aws.CREATE, ⟨"a.txt", "v1", 5⟩, 30⟩

/-- Three actions. -/
def threeActions : List Aws.FileAction := List.replicate 3 sampleAction

/-- Four actions. -/
def fourActions : List Aws.FileAction := List.replicate 4 sampleAction

/-- Two histories: the one of `a.txt` in scenarios S1 to S3, and a single live version of
another key. -/
def twoHistories : List (List Aws.Version) :=
  [Aws.historyOfA, [⟨"b.txt", "u1", 12, true, false, "e7", 3⟩]]

/-! ## Sorting facts -/

theorem insertSlice_perm {α : Type} (less : α → α → Bool) (x : α) (l : List α) :
    (insertSlice less x l).Perm (x :: l) := by
  induction l with
  | nil => simp [insertSlice]
  | cons y ys ih =>
    unfold insertSlice
    split
    · exact (List.Perm.cons y ih).trans (List.Perm.swap x y ys)
    · exact List.Perm.refl _

theorem insertionSlice_perm {α : Type} (less : α → α → Bool) (l : List α) :
    (insertionSlice less l).Perm l := by
  induction l with
  | nil => simp [insertionSlice]
  | cons x xs ih =>
    unfold insertionSlice
    exact (insertSlice_perm less x _).trans (List.Perm.cons x ih)

theorem insertSlice_pairwise {α : Type} (less : α → α → Bool)
    (hasym : ∀ a b, less a b = true → less b a = false)
    (hle : ∀ a b c, less b a = false → less c b = false → less c a = false)
    (x : α) (l : List α) (hl : l.Pairwise (fun a b => less b a = false)) :
    (insertSlice less x l).Pairwise (fun a b => less b a = false) := by
  induction l with
  | nil => simp [insertSlice]
  | cons y ys ih =>
    rw [List.pairwise_cons] at hl
    unfold insertSlice
    split
    · rename_i hyx
      refine List.pairwise_cons.mpr ⟨?_, ih hl.2⟩
      intro z hz
      have hz2 : z ∈ x :: ys := (insertSlice_perm less x ys).subset hz
      rcases List.mem_cons.mp hz2 with rfl | hz3
      · exact hasym _ _ hyx
      · exact hl.1 z hz3
    · rename_i hyx
      have hyx' : less y x = false := by simpa using hyx
      refine List.pairwise_cons.mpr ⟨?_, List.pairwise_cons.mpr hl⟩
      intro z hz
      rcases List.mem_cons.mp hz with rfl | hz
      · exact hyx'
      · exact hle x y z hyx' (hl.1 z hz)

theorem insertionSlice_sortsBy {α : Type} (less : α → α → Bool)
    (hasym : ∀ a b, less a b = true → less b a = false)
    (hle : ∀ a b c, less b a = false → less c b = false → less c a = false) :
    SortsBy less (insertionSlice less) := by
  intro l
  refine ⟨insertionSlice_perm less l, ?_⟩
  induction l with
  | nil => simp [insertionSlice]
  | cons x xs ih =>
    unfold insertionSlice
    exact insertSlice_pairwise less hasym hle x _ ih

theorem sliceIsSorted_pairwise {α : Type} (less : α → α → Bool)
    (hle : ∀ a b c, less b a = false → less c b = false → less c a = false)
    (l : List α) (h : SliceIsSorted less l = true) :
    l.Pairwise (fun a b => less b a = false) := by
  induction l with
  | nil => exact List.Pairwise.nil
  | cons a l ih =>
    cases l with
    | nil => simp
    | cons b rest =>
      simp only [SliceIsSorted, Bool.and_eq_true, Bool.not_eq_true'] at h
      have ih2 := ih h.2
      refine List.pairwise_cons.mpr ⟨?_, ih2⟩
      intro z hz
      rcases List.mem_cons.mp hz with rfl | hz
      · exact h.1
      · exact hle a b z h.1 ((List.pairwise_cons.mp ih2).1 z hz)

theorem sortIfNeeded_spec {α : Type} (less : α → α → Bool) (sortSlice : List α → List α)
    (hle : ∀ a b c, less b a = false → less c b = false → less c a = false)
    (hs : SortsBy less sortSlice) (l : List α) :
    (SortIfNeeded sortSlice less l).Perm l ∧
      (SortIfNeeded sortSlice less l).Pairwise (fun a b => less b a = false) := by
  unfold SortIfNeeded
  cases h : SliceIsSorted less l with
  | true => simpa using sliceIsSorted_pairwise less hle l h
  | false => simpa using hs l

theorem sortIfNeeded_of_sorted {α : Type} (less : α → α → Bool) (sortSlice : List α → List α)
    (l : List α) (h : SliceIsSorted less l = true) : SortIfNeeded sortSlice less l = l := by
  simp [SortIfNeeded, h]

/-! ## State reconstruction on the S3 side -/

namespace Aws

theorem ascOrder_sortsBy : SortsBy ascOrder (insertionSlice ascOrder) := by
  apply insertionSlice_sortsBy
  · intro a b h
    simp only [ascOrder, Time.Before, decide_eq_true_eq, decide_eq_false_iff_not] at *
    linarith
  · intro a b c h1 h2
    simp only [ascOrder, Time.Before, decide_eq_false_iff_not] at *
    linarith

theorem sorted_spec (sortSlice : List Version → List Version)
    (hs : SortsBy ascOrder sortSlice) (vs : List Version) :
    (SortByLastModifiedAsc sortSlice vs).Perm vs ∧
      (SortByLastModifiedAsc sortSlice vs).Pairwise
        (fun a b => a.LastModified ≤ b.LastModified) := by
  have h := sortIfNeeded_spec ascOrder sortSlice (by
    intro a b c h1 h2
    simp only [ascOrder, Time.Before, decide_eq_false_iff_not] at *
    linarith) hs vs
  refine ⟨h.1, h.2.imp ?_⟩
  intro a b hab
  simp only [ascOrder, Time.Before, decide_eq_false_iff_not] at hab
  linarith

/-- The sorted slice, seen through the indexing the source uses. -/
theorem sorted_facts (sortSlice : List Version → List Version)
    (hs : SortsBy ascOrder sortSlice) (vs : List Version) :
    (∀ j, j < vs.length → (SortByLastModifiedAsc sortSlice vs).getD j Version.zero ∈ vs) ∧
    (∀ u ∈ vs, ∃ j, j < vs.length ∧
      (SortByLastModifiedAsc sortSlice vs).getD j Version.zero = u) ∧
    (∀ i j, i ≤ j → j < vs.length →
      ((SortByLastModifiedAsc sortSlice vs).getD i Version.zero).LastModified ≤
        ((SortByLastModifiedAsc sortSlice vs).getD j Version.zero).LastModified) := by
  obtain ⟨hperm, hsorted⟩ := sorted_spec sortSlice hs vs
  have hlen : (SortByLastModifiedAsc sortSlice vs).length = vs.length := hperm.length_eq
  refine ⟨?_, ?_, ?_⟩
  · intro j hj
    rw [List.getD_eq_getElem _ _ (by omega)]
    exact hperm.subset (List.getElem_mem _)
  · intro u hu
    obtain ⟨n, hn, hnu⟩ := List.mem_iff_getElem.mp (hperm.symm.subset hu)
    exact ⟨n, by omega, by rw [List.getD_eq_getElem _ _ hn]; exact hnu⟩
  · intro i j hij hj
    rw [List.getD_eq_getElem _ _ (by omega), List.getD_eq_getElem _ _ (by omega)]
    rcases Nat.lt_or_eq_of_le hij with h | h
    · exact (List.pairwise_iff_getElem.mp hsorted) i j (by omega) (by omega) h
    · subst h; exact le_refl _

theorem stateOfVersionAtTime_of_lt (v : Version) (t : Time) (h : v.LastModified < t) :
    StateOfVersionAtTime v t = StateOfVersion v := by
  simp [StateOfVersionAtTime, StateOfVersion, Time.Before, h]

theorem scanDown_spec (s : List Version) (t : Time) (n : Nat) :
    (scanDown s t n = PathState.zero ∧
        ∀ i, i < n → ¬ (s.getD i Version.zero).LastModified < t) ∨
    (∃ i, i < n ∧ (s.getD i Version.zero).LastModified < t ∧
        (∀ j, i < j → j < n → ¬ (s.getD j Version.zero).LastModified < t) ∧
        scanDown s t n = StateOfVersion (s.getD i Version.zero)) := by
  induction n with
  | zero => left; exact ⟨rfl, by intro i hi; omega⟩
  | succ n ih =>
    unfold scanDown
    by_cases h : (s.getD n Version.zero).LastModified < t
    · right
      refine ⟨n, by omega, h, by intro j h1 h2; omega, ?_⟩
      simp only [Time.After, h, decide_True, if_true]
      exact stateOfVersionAtTime_of_lt _ _ h
    · simp only [Time.After, h, decide_False]
      rcases ih with ⟨h0, hall⟩ | ⟨i, hi, hlt, hafter, heq⟩
      · left
        refine ⟨by simpa using h0, ?_⟩
        intro i hi
        rcases Nat.lt_or_eq_of_le (Nat.le_of_lt_succ hi) with h1 | h1
        · exact hall i h1
        · subst h1; exact h
      · right
        refine ⟨i, by omega, hlt, ?_, by simpa using heq⟩
        intro j h1 h2
        rcases Nat.lt_or_eq_of_le (Nat.le_of_lt_succ h2) with h3 | h3
        · exact hafter j h1 h3
        · subst h3; exact h

theorem stateDiffAtTime_eq (sortSlice : List Version → List Version) (vs : List Version)
    (t : Time) (hne : vs ≠ []) :
    StateDiffAtTime sortSlice vs t =
      (if ((SortByLastModifiedAsc sortSlice vs).getD (vs.length - 1) Version.zero).LastModified
            < t then
          StateOfVersionAtTime
            ((SortByLastModifiedAsc sortSlice vs).getD (vs.length - 1) Version.zero) t
        else if t < ((SortByLastModifiedAsc sortSlice vs).getD 0 Version.zero).LastModified then
          ⟨NOT_EXISTENT, (SortByLastModifiedAsc sortSlice vs).getD 0 Version.zero⟩
        else scanDown (SortByLastModifiedAsc sortSlice vs) t vs.length,
       StateOfVersion
        ((SortByLastModifiedAsc sortSlice vs).getD (vs.length - 1) Version.zero)) := by
  have hlen : vs.length ≠ 0 := by
    intro h; exact hne (List.length_eq_zero.mp h)
  unfold StateDiffAtTime
  simp only [hlen, if_false, Time.After, Time.Before, decide_eq_true_eq]
  split_ifs <;> rfl

/-- The state at `t`, in terms of the input slice (in any order). -/
theorem desired_spec (sortSlice : List Version → List Version)
    (hs : SortsBy ascOrder sortSlice) (vs : List Version) (t : Time) (hne : vs ≠ []) :
    ((∀ v ∈ vs, ¬ v.LastModified < t) ∧
      (((StateDiffAtTime sortSlice vs t).1 = PathState.zero ∧
          ∃ f ∈ vs, f.LastModified = t) ∨
        (∃ f ∈ vs, t < f.LastModified ∧
          (StateDiffAtTime sortSlice vs t).1 = ⟨NOT_EXISTENT, f⟩))) ∨
    (∃ v, IsLatestBefore vs t v ∧ (StateDiffAtTime sortSlice vs t).1 = StateOfVersion v) := by
  obtain ⟨hmem, hidx, hmono⟩ := sorted_facts sortSlice hs vs
  have hn : 0 < vs.length := List.length_pos.mpr hne
  rw [stateDiffAtTime_eq sortSlice vs t hne]
  by_cases h1 : ((SortByLastModifiedAsc sortSlice vs).getD (vs.length - 1)
      Version.zero).LastModified < t
  · right
    refine ⟨_, ⟨hmem (vs.length - 1) (by omega), h1, ?_⟩, ?_⟩
    · intro u hu _
      obtain ⟨j, hj, rfl⟩ := hidx u hu
      exact hmono j (vs.length - 1) (by omega) (by omega)
    · simp only [if_pos h1]
      exact stateOfVersionAtTime_of_lt _ _ h1
  · simp only [if_neg h1]
    by_cases h2 : t < ((SortByLastModifiedAsc sortSlice vs).getD 0 Version.zero).LastModified
    · left
      simp only [if_pos h2]
      refine ⟨?_, Or.inr ⟨_, hmem 0 hn, h2, rfl⟩⟩
      intro v hv hlt
      obtain ⟨j, hj, rfl⟩ := hidx v hv
      have := hmono 0 j (by omega) hj
      linarith
    · simp only [if_neg h2]
      rcases scanDown_spec (SortByLastModifiedAsc sortSlice vs) t vs.length with
        ⟨h0, hall⟩ | ⟨i, hi, hlt, hafter, heq⟩
      · left
        refine ⟨?_, Or.inl ⟨h0, _, hmem 0 hn, ?_⟩⟩
        · intro v hv hlt
          obtain ⟨j, hj, rfl⟩ := hidx v hv
          exact hall j hj hlt
        · have := hall 0 hn
          linarith
      · right
        refine ⟨_, ⟨hmem i hi, hlt, ?_⟩, heq⟩
        intro u hu hult
        obtain ⟨j, hj, rfl⟩ := hidx u hu
        by_cases hji : j ≤ i
        · exact hmono j i hji hi
        · exact absurd hult (hafter j (by omega) hj)

/-- The last known state, in terms of the input slice (in any order). -/
theorem current_spec (sortSlice : List Version → List Version)
    (hs : SortsBy ascOrder sortSlice) (vs : List Version) (t : Time) (hne : vs ≠ []) :
    ∃ m ∈ vs, (∀ u ∈ vs, u.LastModified ≤ m.LastModified) ∧
      (StateDiffAtTime sortSlice vs t).2 = StateOfVersion m := by
  obtain ⟨hmem, hidx, hmono⟩ := sorted_facts sortSlice hs vs
  have hn : 0 < vs.length := List.length_pos.mpr hne
  rw [stateDiffAtTime_eq sortSlice vs t hne]
  refine ⟨_, hmem (vs.length - 1) (by omega), ?_, rfl⟩
  intro u hu
  obtain ⟨j, hj, rfl⟩ := hidx u hu
  exact hmono j (vs.length - 1) (by omega) (by omega)

theorem stateOfVersion_version (v : Version) : (StateOfVersion v).Version = v := by
  unfold StateOfVersion; split <;> rfl

theorem stateOfVersion_status (v : Version) :
    (StateOfVersion v).PathStatus = if v.IsDeleteMarker then DELETED else EXISTS := by
  unfold StateOfVersion; split <;> rfl

theorem stateOfVersion_status_ne (v : Version) :
    (StateOfVersion v).PathStatus ≠ NOT_EXISTENT := by
  unfold StateOfVersion; split <;> simp

theorem isLatestBefore_unique (vs : List Version) (t : Time)
    (hd : vs.Pairwise (fun a b => a.LastModified ≠ b.LastModified))
    (v w : Version) (hv : IsLatestBefore vs t v) (hw : IsLatestBefore vs t w) : v = w := by
  by_contra hne
  have hsymm : Symmetric (fun a b : Version => a.LastModified ≠ b.LastModified) :=
    fun _ _ h => Ne.symm h
  have h := hd.forall hsymm hv.1 hw.1 hne
  have h1 := hv.2.2 w hw.1 hw.2.1
  have h2 := hw.2.2 v hv.1 hv.2.1
  exact h (le_antisymm h2 h1)

/-- C1. S3 `StateDiffAtTime`, on a non-empty slice of versions with pairwise distinct
`LastModified` given in any order: the state at `t` has status `NOT_EXISTENT` exactly when no
version was modified strictly before `t`; otherwise it carries the version with the greatest
`LastModified` strictly before `t`, with status `DELETED` when that version is a delete marker
and `EXISTS` when it is live; the version of a state other than `NOT_EXISTENT` is a version of
the slice and was never modified exactly at `t`. -/
theorem stateDiffAtTime_selects_latest_before (sortSlice : List Version → List Version)
    (hs : SortsBy ascOrder sortSlice) (vs : List Version) (t : Time) (hne : vs ≠ [])
    (hd : vs.Pairwise (fun a b => a.LastModified ≠ b.LastModified)) :
    ((StateDiffAtTime sortSlice vs t).1.PathStatus = NOT_EXISTENT ↔
        ∀ v ∈ vs, ¬ v.LastModified < t) ∧
    (∀ v, IsLatestBefore vs t v →
        (StateDiffAtTime sortSlice vs t).1.Version = v ∧
        (StateDiffAtTime sortSlice vs t).1.PathStatus =
          if v.IsDeleteMarker then DELETED else EXISTS) ∧
    ((StateDiffAtTime sortSlice vs t).1.PathStatus ≠ NOT_EXISTENT →
        (StateDiffAtTime sortSlice vs t).1.Version ∈ vs ∧
        (StateDiffAtTime sortSlice vs t).1.Version.LastModified < t ∧
        ∀ v ∈ vs, v.LastModified = t → (StateDiffAtTime sortSlice vs t).1.Version ≠ v) := by
  rcases desired_spec sortSlice hs vs t hne with
    ⟨hnone, h⟩ | ⟨v, hv, heq⟩
  · have hst : (StateDiffAtTime sortSlice vs t).1.PathStatus = NOT_EXISTENT := by
      rcases h with ⟨h0, _⟩ | ⟨f, _, _, hf⟩
      · rw [h0]; rfl
      · rw [hf]
    refine ⟨⟨fun _ => hnone, fun _ => hst⟩, ?_, fun h => absurd hst h⟩
    intro w hw
    exact absurd hw.2.1 (hnone w hw.1)
  · rw [heq]
    refine ⟨⟨fun h => absurd h (stateOfVersion_status_ne v), fun h => absurd hv.2.1 (h v hv.1)⟩,
      ?_, ?_⟩
    · intro w hw
      have := isLatestBefore_unique vs t hd v w hv hw
      subst this
      exact ⟨stateOfVersion_version v, stateOfVersion_status v⟩
    · intro _
      rw [stateOfVersion_version]
      refine ⟨hv.1, hv.2.1, ?_⟩
      intro w _ hwt hvw
      have := hv.2.1
      rw [hvw, hwt] at this
      exact lt_irrefl _ this

/-- Witness of C1 on the history of scenario S1 at `T = 25`: the delete marker `v2` is the
latest version before 25, and the state at 25 carries it with status `DELETED`. -/
theorem stateDiffAtTime_selects_latest_before_witness :
    SortsBy ascOrder (insertionSlice ascOrder) ∧ historyOfA ≠ [] ∧
    historyOfA.Pairwise (fun a b => a.LastModified ≠ b.LastModified) ∧
    IsLatestBefore historyOfA 25 v2 ∧
    (StateDiffAtTime (insertionSlice ascOrder) historyOfA 25).1.Version = v2 ∧
    (StateDiffAtTime (insertionSlice ascOrder) historyOfA 25).1.PathStatus =
      (if v2.IsDeleteMarker then DELETED else EXISTS) :=
  have hl : IsLatestBefore historyOfA 25 v2 := ⟨by decide, by decide, by decide⟩
  ⟨ascOrder_sortsBy, by decide, by decide, hl,
    (stateDiffAtTime_selects_latest_before (insertionSlice ascOrder) ascOrder_sortsBy
      historyOfA 25 (by decide) (by decide)).2.1 v2 hl⟩

end Aws

/-! ## Action derivation -/

/-- C2, counterexample. S3 `ActionForStateChange` with both states `EXISTS`, different version
IDs (`v3` current, `v1` desired) and the same ETag `X`: the result is `NO_ACTION` although the
desired state does not have the same version ID as the current one. -/
theorem aws_exists_exists_no_action_differing_ids :
    (⟨Aws.EXISTS, ⟨"a.txt", "v3", 30, true, false, "X", 7⟩⟩ : Aws.PathState).PathStatus
        = Aws.EXISTS ∧
    (⟨Aws.EXISTS, ⟨"a.txt", "v1", 10, false, false, "X", 7⟩⟩ : Aws.PathState).PathStatus
        = Aws.EXISTS ∧
    (Aws.ActionForStateChange ⟨Aws.EXISTS, ⟨"a.txt", "v3", 30, true, false, "X", 7⟩⟩
        ⟨Aws.EXISTS, ⟨"a.txt", "v1", 10, false, false, "X", 7⟩⟩).Action = Aws.NO_ACTION ∧
    ¬ ((⟨"a.txt", "v1", 10, false, false, "X", 7⟩ : Aws.Version).ID
          = (⟨"a.txt", "v3", 30, true, false, "X", 7⟩ : Aws.Version).ID ∧
       (⟨"a.txt", "v1", 10, false, false, "X", 7⟩ : Aws.Version).ETag
          = (⟨"a.txt", "v3", 30, true, false, "X", 7⟩ : Aws.Version).ETag) := by
  decide

/-- C2, amended. S3 `ActionForStateChange` with both states `EXISTS`: the result is
`NO_ACTION` if and only if the desired state has the same ETag as the current state (whether or
not the version IDs agree, so in particular when both the version ID and the ETag agree); in
every other `EXISTS`-to-`EXISTS` case the result is `CREATE`. -/
theorem aws_exists_exists_no_action_iff_same_etag (cur des : Aws.PathState)
    (hc : cur.PathStatus = Aws.EXISTS) (hd : des.PathStatus = Aws.EXISTS) :
    ((Aws.ActionForStateChange cur des).Action = Aws.NO_ACTION ↔
        des.Version.ETag = cur.Version.ETag) ∧
    (des.Version.ID = cur.Version.ID ∧ des.Version.ETag = cur.Version.ETag →
        (Aws.ActionForStateChange cur des).Action = Aws.NO_ACTION) ∧
    (des.Version.ETag ≠ cur.Version.ETag →
        (Aws.ActionForStateChange cur des).Action = Aws.CREATE) := by
  have hne : des.Version.ETag ≠ cur.Version.ETag → des.Version ≠ cur.Version :=
    fun h h2 => h (by rw [h2])
  unfold Aws.ActionForStateChange
  simp only [hc, hd]
  by_cases he : des.Version.ETag = cur.Version.ETag
  · simp [he]
  · simp [he, hne he]

/-- Witness of the amended C2: current `v3` and desired `v1` of scenario S2 have different
ETags, and the result is `CREATE`. -/
theorem aws_exists_exists_no_action_iff_same_etag_witness :
    (Aws.StateOfVersion Aws.v3).PathStatus = Aws.EXISTS ∧
    (Aws.StateOfVersion Aws.v1).PathStatus = Aws.EXISTS ∧
    Aws.v1.ETag ≠ Aws.v3.ETag ∧
    (Aws.ActionForStateChange (Aws.StateOfVersion Aws.v3) (Aws.StateOfVersion Aws.v1)).Action
      = Aws.CREATE :=
  ⟨by decide, by decide, by decide,
    (aws_exists_exists_no_action_iff_same_etag (Aws.StateOfVersion Aws.v3)
      (Aws.StateOfVersion Aws.v1) (by decide) (by decide)).2.2 (by decide)⟩

/-- C3. GCS `ActionForStateChange` with both states `EXISTS` and byte-equal MD5 digests: the
result is `NO_ACTION`, whatever the two generations are. -/
theorem gcp_exists_exists_same_md5_no_action (cur des : Gcp.PathState)
    (hc : cur.PathStatus = Gcp.EXISTS) (hd : des.PathStatus = Gcp.EXISTS)
    (hmd5 : des.MD5 = cur.MD5) :
    (Gcp.ActionForStateChange cur des).Action = Gcp.NO_ACTION := by
  unfold Gcp.ActionForStateChange
  simp [hc, hd, hmd5]

/-- Witness of C3 (scenario S4): current generation 200, desired generation 100, the same
MD5. -/
theorem gcp_exists_exists_same_md5_no_action_witness :
    (200 : Int) ≠ 100 ∧
    (Gcp.ActionForStateChange ⟨Gcp.EXISTS, 200, "a.txt", [88]⟩
      ⟨Gcp.EXISTS, 100, "a.txt", [88]⟩).Action = Gcp.NO_ACTION :=
  ⟨by decide,
    gcp_exists_exists_same_md5_no_action ⟨Gcp.EXISTS, 200, "a.txt", [88]⟩
      ⟨Gcp.EXISTS, 100, "a.txt", [88]⟩ rfl rfl rfl⟩

/-- C4. `ActionForStateChange`, S3 and GCS, from a current state `EXISTS` to a desired state
`DELETED` or `NOT_EXISTENT`: the result is `DELETE`, its source version identifier is the
current state's and its pre-condition is the current state's (`LastModified` on S3, the
generation on GCS). -/
theorem exists_to_absent_is_delete :
    (∀ cur des : Aws.PathState, cur.PathStatus = Aws.EXISTS →
      (des.PathStatus = Aws.DELETED ∨ des.PathStatus = Aws.NOT_EXISTENT) →
      (Aws.ActionForStateChange cur des).Action = Aws.DELETE ∧
      (Aws.ActionForStateChange cur des).Source.Version = cur.Version.ID ∧
      (Aws.ActionForStateChange cur des).UnmodifiedPreCondition = cur.Version.LastModified) ∧
    (∀ cur des : Gcp.PathState, cur.PathStatus = Gcp.EXISTS →
      (des.PathStatus = Gcp.DELETED ∨ des.PathStatus = Gcp.NOT_EXISTENT) →
      (Gcp.ActionForStateChange cur des).Action = Gcp.DELETE ∧
      (Gcp.ActionForStateChange cur des).Source.Generation = cur.Generation ∧
      (Gcp.ActionForStateChange cur des).GenerationPreCondition = cur.Generation) := by
  constructor
  · intro cur des hc hd
    unfold Aws.ActionForStateChange
    simp [hc, hd]
  · intro cur des hc hd
    unfold Gcp.ActionForStateChange
    simp [hc, hd]

/-- Witness of C4 (scenarios S1 and S3): current `EXISTS` at `v3`, modified at 30, and a
desired state `DELETED` at `v2` give `DELETE` of `v3` with pre-condition 30. -/
theorem exists_to_absent_is_delete_witness :
    (Aws.ActionForStateChange (Aws.StateOfVersion Aws.v3) (Aws.StateOfVersion Aws.v2)).Action
      = Aws.DELETE ∧
    (Aws.ActionForStateChange (Aws.StateOfVersion Aws.v3)
      (Aws.StateOfVersion Aws.v2)).Source.Version = "v3" ∧
    (Aws.ActionForStateChange (Aws.StateOfVersion Aws.v3)
      (Aws.StateOfVersion Aws.v2)).UnmodifiedPreCondition = 30 :=
  exists_to_absent_is_delete.1 (Aws.StateOfVersion Aws.v3) (Aws.StateOfVersion Aws.v2)
    (by decide) (Or.inl (by decide))

/-- C5. `ActionForStateChange`, S3 and GCS, from a current state `DELETED`: the result is
`CREATE` exactly when the desired status is `EXISTS` and `NO_ACTION` otherwise; that `CREATE`
copies from the desired state's version identifier and carries no pre-condition (the zero
time on S3, generation 0 on GCS). -/
theorem deleted_creates_iff_desired_exists :
    (∀ cur des : Aws.PathState, cur.PathStatus = Aws.DELETED →
      ((Aws.ActionForStateChange cur des).Action = Aws.CREATE ↔
        des.PathStatus = Aws.EXISTS) ∧
      (des.PathStatus ≠ Aws.EXISTS →
        (Aws.ActionForStateChange cur des).Action = Aws.NO_ACTION) ∧
      (des.PathStatus = Aws.EXISTS →
        (Aws.ActionForStateChange cur des).Source.Version = des.Version.ID ∧
        Time.IsZero (Aws.ActionForStateChange cur des).UnmodifiedPreCondition = true)) ∧
    (∀ cur des : Gcp.PathState, cur.PathStatus = Gcp.DELETED →
      ((Gcp.ActionForStateChange cur des).Action = Gcp.CREATE ↔
        des.PathStatus = Gcp.EXISTS) ∧
      (des.PathStatus ≠ Gcp.EXISTS →
        (Gcp.ActionForStateChange cur des).Action = Gcp.NO_ACTION) ∧
      (des.PathStatus = Gcp.EXISTS →
        (Gcp.ActionForStateChange cur des).Source.Generation = des.Generation ∧
        (Gcp.ActionForStateChange cur des).GenerationPreCondition = 0)) := by
  constructor
  · intro cur des hc
    unfold Aws.ActionForStateChange
    by_cases hd : des.PathStatus = Aws.EXISTS
    · simp [hc, hd, Time.IsZero]
    · simp [hc, hd]
  · intro cur des hc
    unfold Gcp.ActionForStateChange
    by_cases hd : des.PathStatus = Gcp.EXISTS
    · simp [hc, hd]
    · simp [hc, hd]

/-- Witness of C5: the current state is the delete marker `v2`, the desired state the live
version `v1`; the result is `CREATE` from `v1` with the zero time as pre-condition. -/
theorem deleted_creates_iff_desired_exists_witness :
    (Aws.StateOfVersion Aws.v2).PathStatus = Aws.DELETED ∧
    (Aws.StateOfVersion Aws.v1).PathStatus = Aws.EXISTS ∧
    (Aws.ActionForStateChange (Aws.StateOfVersion Aws.v2) (Aws.StateOfVersion Aws.v1)).Action
      = Aws.CREATE ∧
    (Aws.ActionForStateChange (Aws.StateOfVersion Aws.v2)
      (Aws.StateOfVersion Aws.v1)).Source.Version = "v1" ∧
    Time.IsZero (Aws.ActionForStateChange (Aws.StateOfVersion Aws.v2)
      (Aws.StateOfVersion Aws.v1)).UnmodifiedPreCondition = true :=
  ⟨by decide, by decide,
    ((deleted_creates_iff_desired_exists.1 (Aws.StateOfVersion Aws.v2)
      (Aws.StateOfVersion Aws.v1) (by decide)).1).mpr (by decide),
    (deleted_creates_iff_desired_exists.1 (Aws.StateOfVersion Aws.v2)
      (Aws.StateOfVersion Aws.v1) (by decide)).2.2 (by decide)⟩

/-- C6. `ActionForStateChange`, S3 and GCS, with both states `EXISTS` and a result `CREATE`:
the source version identifier is the desired state's and the pre-condition is the current
state's (`LastModified` on S3, the generation on GCS). -/
theorem exists_exists_create_source_and_precondition :
    (∀ cur des : Aws.PathState, cur.PathStatus = Aws.EXISTS → des.PathStatus = Aws.EXISTS →
      (Aws.ActionForStateChange cur des).Action = Aws.CREATE →
      (Aws.ActionForStateChange cur des).Source.Version = des.Version.ID ∧
      (Aws.ActionForStateChange cur des).UnmodifiedPreCondition = cur.Version.LastModified) ∧
    (∀ cur des : Gcp.PathState, cur.PathStatus = Gcp.EXISTS → des.PathStatus = Gcp.EXISTS →
      (Gcp.ActionForStateChange cur des).Action = Gcp.CREATE →
      (Gcp.ActionForStateChange cur des).Source.Generation = des.Generation ∧
      (Gcp.ActionForStateChange cur des).GenerationPreCondition = cur.Generation) := by
  constructor
  · intro cur des hc hd
    unfold Aws.ActionForStateChange
    simp only [hc, hd]
    by_cases h : des.Version ≠ cur.Version ∧ des.Version.ETag ≠ cur.Version.ETag
    · simp [h]
    · simp [h]
  · intro cur des hc hd
    unfold Gcp.ActionForStateChange
    simp only [hc, hd]
    by_cases h : des.Generation ≠ cur.Generation ∧ ¬ (des.MD5 = cur.MD5)
    · simp [h]
    · simp [h]

/-- Witness of C6 (scenario S2): current `EXISTS` at `v3`, modified at 30, desired `EXISTS`
at `v1` with another ETag; the result is `CREATE` from `v1` with pre-condition 30. -/
theorem exists_exists_create_source_and_precondition_witness :
    (Aws.ActionForStateChange (Aws.StateOfVersion Aws.v3) (Aws.StateOfVersion Aws.v1)).Action
      = Aws.CREATE ∧
    (Aws.ActionForStateChange (Aws.StateOfVersion Aws.v3)
      (Aws.StateOfVersion Aws.v1)).Source.Version = "v1" ∧
    (Aws.ActionForStateChange (Aws.StateOfVersion Aws.v3)
      (Aws.StateOfVersion Aws.v1)).UnmodifiedPreCondition = 30 :=
  ⟨by decide,
    exists_exists_create_source_and_precondition.1 (Aws.StateOfVersion Aws.v3)
      (Aws.StateOfVersion Aws.v1) (by decide) (by decide) (by decide)⟩

/-- C7, the code at the failing input. The current state is a live 7-byte version `v3`, the
desired state a live version `v1` of 6 GiB with another ETag: S3 `ActionForStateChange`
returns `CREATE` from `v1` whose `Source.Size` is 7, the size of the current version, and not
the size of the version being copied from. -/
theorem aws_create_from_exists_keeps_current_size :
    (Aws.ActionForStateChange ⟨Aws.EXISTS, ⟨"a.txt", "v3", 30, true, false, "e3", 7⟩⟩
        ⟨Aws.EXISTS, ⟨"a.txt", "v1", 10, false, false, "e1", 6442450944⟩⟩)
      = ⟨Aws.CREATE, ⟨"a.txt", "v1", 7⟩, 30⟩ ∧
    (Aws.ActionForStateChange ⟨Aws.EXISTS, ⟨"a.txt", "v3", 30, true, false, "e3", 7⟩⟩
        ⟨Aws.EXISTS, ⟨"a.txt", "v1", 10, false, false, "e1", 6442450944⟩⟩).Source.Size
      ≠ (⟨"a.txt", "v1", 10, false, false, "e1", 6442450944⟩ : Aws.Version).Size := by
  decide

/-- C8, the code at the failing input. The history of `a.txt` is the single live version `v1`
(S3, modified at 10) or the single live generation 100 (GCS, created at 10), and `T = 10` is
exactly the earliest timestamp. Whatever the sorting routine, the state at `T` is the zero
state, the derived action is `DELETE`, and its source key is the empty string, not `a.txt`. -/
theorem delete_at_earliest_timestamp_loses_key :
    (∀ sortSlice : List Aws.Version → List Aws.Version,
      (Aws.StateDiffAtTime sortSlice [Aws.v1] 10).1 = Aws.PathState.zero ∧
      Aws.ActionForStateChange (Aws.StateDiffAtTime sortSlice [Aws.v1] 10).2
        (Aws.StateDiffAtTime sortSlice [Aws.v1] 10).1 = ⟨Aws.DELETE, ⟨"", "v1", 5⟩, 10⟩) ∧
    (∀ sortSlice : List Gcp.Generation → List Gcp.Generation,
      (Gcp.StateDiffAtTime sortSlice [Gcp.g100] 10).1 = Gcp.PathState.zero ∧
      Gcp.ActionForStateChange (Gcp.StateDiffAtTime sortSlice [Gcp.g100] 10).2
        (Gcp.StateDiffAtTime sortSlice [Gcp.g100] 10).1 = ⟨Gcp.DELETE, ⟨"", 100⟩, 100⟩) ∧
    Aws.v1.Key = "a.txt" ∧ Gcp.g100.Name = "a.txt" ∧ ("" : String) ≠ "a.txt" := by
  refine ⟨fun _ => ⟨rfl, rfl⟩, fun _ => ⟨rfl, rfl⟩, rfl, rfl, by decide⟩

namespace Aws

theorem action_self_noop (v : Version) :
    (ActionForStateChange (StateOfVersion v) (StateOfVersion v)).Action = NO_ACTION := by
  unfold ActionForStateChange StateOfVersion
  cases h : v.IsDeleteMarker <;> simp

theorem desired_eq_current_of_all_before (sortSlice : List Version → List Version)
    (hs : SortsBy ascOrder sortSlice) (vs : List Version) (t : Time) (hne : vs ≠ [])
    (hall : ∀ v ∈ vs, v.LastModified < t) :
    ∃ m ∈ vs, (StateDiffAtTime sortSlice vs t).1 = StateOfVersion m ∧
      (StateDiffAtTime sortSlice vs t).2 = StateOfVersion m := by
  obtain ⟨hmem, _, _⟩ := sorted_facts sortSlice hs vs
  have hn : 0 < vs.length := List.length_pos.mpr hne
  have hlast := hmem (vs.length - 1) (by omega)
  have hlt := hall _ hlast
  rw [stateDiffAtTime_eq sortSlice vs t hne]
  refine ⟨_, hlast, ?_, rfl⟩
  simp only [if_pos hlt]
  exact stateOfVersionAtTime_of_lt _ _ hlt

theorem action_noop_of_all_before (sortSlice : List Version → List Version)
    (hs : SortsBy ascOrder sortSlice) (vs : List Version) (t : Time) (hne : vs ≠ [])
    (hall : ∀ v ∈ vs, v.LastModified < t) :
    (ActionForStateChange (StateDiffAtTime sortSlice vs t).2
      (StateDiffAtTime sortSlice vs t).1).Action = NO_ACTION := by
  obtain ⟨m, _, h1, h2⟩ := desired_eq_current_of_all_before sortSlice hs vs t hne hall
  rw [h1, h2]
  exact action_self_noop m

end Aws

/-- C10. Rolling back to a time after all history is a no-op on S3: for a non-empty slice of
versions and an instant `t` strictly after the `LastModified` of every version, the state at
`t` returned by `StateDiffAtTime` equals the current state it returns, and
`ActionForStateChange` from the current to the desired state is `NO_ACTION`. -/
theorem aws_rollback_after_all_history_is_noop (sortSlice : List Aws.Version → List Aws.Version)
    (hs : SortsBy Aws.ascOrder sortSlice) (vs : List Aws.Version) (t : Time) (hne : vs ≠ [])
    (hall : ∀ v ∈ vs, v.LastModified < t) :
    (Aws.StateDiffAtTime sortSlice vs t).1 = (Aws.StateDiffAtTime sortSlice vs t).2 ∧
    (Aws.ActionForStateChange (Aws.StateDiffAtTime sortSlice vs t).2
      (Aws.StateDiffAtTime sortSlice vs t).1).Action = Aws.NO_ACTION := by
  obtain ⟨m, _, h1, h2⟩ := Aws.desired_eq_current_of_all_before sortSlice hs vs t hne hall
  exact ⟨by rw [h1, h2], Aws.action_noop_of_all_before sortSlice hs vs t hne hall⟩

/-- Witness of C10: a single live version `v1`, modified at 10, and `T = 11`: the state at
`T` is `EXISTS` and the action is `NO_ACTION`. -/
theorem aws_rollback_after_all_history_is_noop_witness :
    SortsBy Aws.ascOrder (insertionSlice Aws.ascOrder) ∧ [Aws.v1] ≠ [] ∧
    (∀ v ∈ [Aws.v1], v.LastModified < 11) ∧
    (Aws.StateDiffAtTime (insertionSlice Aws.ascOrder) [Aws.v1] 11).1.PathStatus = Aws.EXISTS ∧
    (Aws.StateDiffAtTime (insertionSlice Aws.ascOrder) [Aws.v1] 11).1
      = (Aws.StateDiffAtTime (insertionSlice Aws.ascOrder) [Aws.v1] 11).2 ∧
    (Aws.ActionForStateChange (Aws.StateDiffAtTime (insertionSlice Aws.ascOrder) [Aws.v1] 11).2
      (Aws.StateDiffAtTime (insertionSlice Aws.ascOrder) [Aws.v1] 11).1).Action
      = Aws.NO_ACTION :=
  ⟨Aws.ascOrder_sortsBy, by decide, by decide, by decide,
    aws_rollback_after_all_history_is_noop (insertionSlice Aws.ascOrder) Aws.ascOrder_sortsBy
      [Aws.v1] 11 (by decide) (by decide)⟩

/-! ## Idempotence on the S3 side -/

namespace Aws

theorem action_create_imp (c d : PathState)
    (h : (ActionForStateChange c d).Action = CREATE)
    (hd : d.PathStatus = NOT_EXISTENT ∨ d.PathStatus = EXISTS ∨ d.PathStatus = DELETED) :
    d.PathStatus = EXISTS := by
  unfold ActionForStateChange at h
  by_contra hne
  split_ifs at h <;> simp_all

theorem desired_status_cases (sortSlice : List Version → List Version)
    (hs : SortsBy ascOrder sortSlice) (vs : List Version) (t : Time) (hne : vs ≠ []) :
    (StateDiffAtTime sortSlice vs t).1.PathStatus = NOT_EXISTENT ∨
    (StateDiffAtTime sortSlice vs t).1.PathStatus = EXISTS ∨
    (StateDiffAtTime sortSlice vs t).1.PathStatus = DELETED := by
  rcases desired_spec sortSlice hs vs t hne with ⟨_, ⟨h0, _⟩ | ⟨f, _, _, hf⟩⟩ | ⟨v, _, heq⟩
  · left; rw [h0]; rfl
  · left; rw [hf]
  · right
    rw [heq, stateOfVersion_status]
    cases v.IsDeleteMarker <;> simp

theorem action_delete_imp (c d : PathState)
    (h : (ActionForStateChange c d).Action = DELETE) : d.PathStatus ≠ EXISTS := by
  unfold ActionForStateChange at h
  intro hd
  split_ifs at h <;> simp_all

theorem noop_of_live_same_etag (w : Version) (d : PathState) (hw : w.IsDeleteMarker = false)
    (hd : d.PathStatus = EXISTS) (he : w.ETag = d.Version.ETag) :
    (ActionForStateChange (StateOfVersion w) d).Action = NO_ACTION := by
  unfold ActionForStateChange StateOfVersion
  simp [hw, hd, he]

theorem noop_of_marker (w : Version) (d : PathState) (hw : w.IsDeleteMarker = true)
    (hd : d.PathStatus ≠ EXISTS) :
    (ActionForStateChange (StateOfVersion w) d).Action = NO_ACTION := by
  unfold ActionForStateChange StateOfVersion
  simp [hw, hd]

theorem current_of_extended (sortSlice : List Version → List Version)
    (hs : SortsBy ascOrder sortSlice) (vs vs' : List Version) (w : Version) (t : Time)
    (hperm : vs'.Perm (w :: vs)) (hlater : ∀ v ∈ vs, v.LastModified < w.LastModified) :
    (StateDiffAtTime sortSlice vs' t).2 = StateOfVersion w := by
  have hne : vs' ≠ [] := by
    intro h
    rw [h] at hperm
    exact absurd hperm.length_eq (by simp)
  obtain ⟨m, hm, hmax, heq⟩ := current_spec sortSlice hs vs' t hne
  rw [heq]
  rcases List.mem_cons.mp (hperm.subset hm) with h | h
  · rw [h]
  · have h1 := hmax w (hperm.symm.subset (List.mem_cons_self w vs))
    have h2 := hlater m h
    exact absurd h1 (not_le.mpr h2)

theorem desired_of_extended (sortSlice : List Version → List Version)
    (hs : SortsBy ascOrder sortSlice) (vs vs' : List Version) (w : Version) (t : Time)
    (hne : vs ≠ []) (hd : vs.Pairwise (fun a b => a.LastModified ≠ b.LastModified))
    (hperm : vs'.Perm (w :: vs)) (hnlt : ¬ w.LastModified < t) :
    (StateDiffAtTime sortSlice vs' t).1.PathStatus
        = (StateDiffAtTime sortSlice vs t).1.PathStatus ∧
    ((StateDiffAtTime sortSlice vs t).1.PathStatus ≠ NOT_EXISTENT →
      (StateDiffAtTime sortSlice vs' t).1 = (StateDiffAtTime sortSlice vs t).1) := by
  have hne' : vs' ≠ [] := by
    intro h
    rw [h] at hperm
    exact absurd hperm.length_eq (by simp)
  have hsub : ∀ u ∈ vs, u ∈ vs' :=
    fun u hu => hperm.symm.subset (List.mem_cons_of_mem w hu)
  have hstatus : ∀ (l : List Version),
      (((StateDiffAtTime sortSlice l t).1 = PathState.zero ∧
          ∃ f ∈ l, f.LastModified = t) ∨
        (∃ f ∈ l, t < f.LastModified ∧
          (StateDiffAtTime sortSlice l t).1 = ⟨NOT_EXISTENT, f⟩)) →
      (StateDiffAtTime sortSlice l t).1.PathStatus = NOT_EXISTENT := by
    intro l h
    rcases h with ⟨h0, _⟩ | ⟨f, _, _, hf⟩
    · rw [h0]; rfl
    · rw [hf]
  rcases desired_spec sortSlice hs vs t hne with ⟨hnone, h⟩ | ⟨v, hv, heq⟩
  · rcases desired_spec sortSlice hs vs' t hne' with ⟨_, h'⟩ | ⟨v', hv', _⟩
    · rw [hstatus vs h, hstatus vs' h']
      exact ⟨rfl, fun hcontra => absurd rfl hcontra⟩
    · rcases List.mem_cons.mp (hperm.subset hv'.1) with hw | hin
      · rw [hw] at hv'
        exact absurd hv'.2.1 hnlt
      · exact absurd hv'.2.1 (hnone v' hin)
  · rcases desired_spec sortSlice hs vs' t hne' with ⟨hnone', _⟩ | ⟨v', hv', heq'⟩
    · exact absurd hv.2.1 (hnone' v (hsub v hv.1))
    · rcases List.mem_cons.mp (hperm.subset hv'.1) with hw | hin
      · rw [hw] at hv'
        exact absurd hv'.2.1 hnlt
      · have hv'' : IsLatestBefore vs t v' :=
          ⟨hin, hv'.2.1, fun u hu hlt => hv'.2.2 u (hsub u hu) hlt⟩
        have := isLatestBefore_unique vs t hd v v' hv hv''
        subst this
        rw [heq, heq']
        exact ⟨rfl, fun _ => rfl⟩

end Aws

/-- C9. Idempotence on S3, for a non-empty slice `vs` of versions with pairwise distinct
`LastModified` and an instant `t`. Let `a` be the action derived by `StateDiffAtTime` followed
by `ActionForStateChange`, and let `vs'` be the history after `a` was run: when `a` is
`CREATE`, `vs` with one more live version (anywhere in the slice) that has a fresh ID, the
ETag of the version the state at `t` carries (the one copied from) and a `LastModified` later
than every existing one; when `a` is `DELETE`, `vs` with one more delete marker with a
`LastModified` later than every existing one; when `a` is `NO_ACTION`, `vs` itself. Then the
action derived from `vs'` at the same `t` is `NO_ACTION`. -/
theorem aws_rollback_idempotent (sortSlice : List Aws.Version → List Aws.Version)
    (hs : SortsBy Aws.ascOrder sortSlice) (vs : List Aws.Version) (t : Time) (hne : vs ≠ [])
    (hd : vs.Pairwise (fun a b => a.LastModified ≠ b.LastModified))
    (vs' : List Aws.Version)
    (hrun :
      ((Aws.ActionForStateChange (Aws.StateDiffAtTime sortSlice vs t).2
            (Aws.StateDiffAtTime sortSlice vs t).1).Action = Aws.CREATE ∧
          ∃ w : Aws.Version, vs'.Perm (w :: vs) ∧ w.IsDeleteMarker = false ∧
            (∀ v ∈ vs, v.ID ≠ w.ID) ∧
            w.ETag = (Aws.StateDiffAtTime sortSlice vs t).1.Version.ETag ∧
            ∀ v ∈ vs, v.LastModified < w.LastModified) ∨
      ((Aws.ActionForStateChange (Aws.StateDiffAtTime sortSlice vs t).2
            (Aws.StateDiffAtTime sortSlice vs t).1).Action = Aws.DELETE ∧
          ∃ w : Aws.Version, vs'.Perm (w :: vs) ∧ w.IsDeleteMarker = true ∧
            ∀ v ∈ vs, v.LastModified < w.LastModified) ∨
      ((Aws.ActionForStateChange (Aws.StateDiffAtTime sortSlice vs t).2
            (Aws.StateDiffAtTime sortSlice vs t).1).Action = Aws.NO_ACTION ∧ vs' = vs)) :
    (Aws.ActionForStateChange (Aws.StateDiffAtTime sortSlice vs' t).2
      (Aws.StateDiffAtTime sortSlice vs' t).1).Action = Aws.NO_ACTION := by
  have hbefore : ∀ w : Aws.Version, (∀ v ∈ vs, v.LastModified < w.LastModified) →
      (Aws.ActionForStateChange (Aws.StateDiffAtTime sortSlice vs t).2
        (Aws.StateDiffAtTime sortSlice vs t).1).Action ≠ Aws.NO_ACTION →
      ¬ w.LastModified < t := by
    intro w hlater hact hlt
    exact hact (Aws.action_noop_of_all_before sortSlice hs vs t hne
      (fun v hv => lt_trans (hlater v hv) hlt))
  rcases hrun with ⟨ha, w, hperm, hlive, _, hetag, hlater⟩ | ⟨ha, w, hperm, hmark, hlater⟩ |
    ⟨ha, rfl⟩
  · have hnlt := hbefore w hlater (by rw [ha]; decide)
    have hdes := Aws.action_create_imp _ _ ha (Aws.desired_status_cases sortSlice hs vs t hne)
    obtain ⟨_, hsame⟩ := Aws.desired_of_extended sortSlice hs vs vs' w t hne hd hperm hnlt
    rw [Aws.current_of_extended sortSlice hs vs vs' w t hperm hlater,
      hsame (by rw [hdes]; decide)]
    exact Aws.noop_of_live_same_etag w _ hlive hdes hetag
  · have hnlt := hbefore w hlater (by rw [ha]; decide)
    have hdes := Aws.action_delete_imp _ _ ha
    obtain ⟨hst, _⟩ := Aws.desired_of_extended sortSlice hs vs vs' w t hne hd hperm hnlt
    rw [Aws.current_of_extended sortSlice hs vs vs' w t hperm hlater]
    exact Aws.noop_of_marker w _ hmark (by rw [hst]; exact hdes)
  · exact ha

/-- Witness of C9 (scenario S2): at `T = 15` the history `v1, v2, v3` of `a.txt` gives
`CREATE` from `v1`; once the copy `v4` of `v1` is appended, the derived action is
`NO_ACTION`. -/
theorem aws_rollback_idempotent_witness :
    SortsBy Aws.ascOrder (insertionSlice Aws.ascOrder) ∧ Aws.historyOfA ≠ [] ∧
    Aws.historyOfA.Pairwise (fun a b => a.LastModified ≠ b.LastModified) ∧
    (Aws.ActionForStateChange
      (Aws.StateDiffAtTime (insertionSlice Aws.ascOrder) Aws.historyOfA 15).2
      (Aws.StateDiffAtTime (insertionSlice Aws.ascOrder) Aws.historyOfA 15).1).Action
      = Aws.CREATE ∧
    (Aws.ActionForStateChange
      (Aws.StateDiffAtTime (insertionSlice Aws.ascOrder) (Aws.historyOfA ++ [Aws.v4]) 15).2
      (Aws.StateDiffAtTime (insertionSlice Aws.ascOrder) (Aws.historyOfA ++ [Aws.v4]) 15).1).Action
      = Aws.NO_ACTION :=
  ⟨Aws.ascOrder_sortsBy, by decide, by decide, by decide,
    aws_rollback_idempotent (insertionSlice Aws.ascOrder) Aws.ascOrder_sortsBy
      Aws.historyOfA 15 (by decide) (by decide) (Aws.historyOfA ++ [Aws.v4])
      (Or.inl ⟨by decide, Aws.v4, List.perm_append_singleton Aws.v4 Aws.historyOfA,
        by decide, by decide, by decide, by decide⟩)⟩

/-! ## State reconstruction on the GCS side -/

namespace Gcp

theorem gen_ascOrder_sortsBy : SortsBy ascOrder (insertionSlice ascOrder) := by
  apply insertionSlice_sortsBy
  · intro a b h
    simp only [ascOrder, Time.Before, decide_eq_true_eq, decide_eq_false_iff_not] at *
    linarith
  · intro a b c h1 h2
    simp only [ascOrder, Time.Before, decide_eq_false_iff_not] at *
    linarith

theorem gen_sorted_spec (sortSlice : List Generation → List Generation)
    (hs : SortsBy ascOrder sortSlice) (gens : List Generation) :
    (SortByCreatedDateAsc sortSlice gens).Perm gens ∧
      (SortByCreatedDateAsc sortSlice gens).Pairwise (fun a b => a.Created ≤ b.Created) := by
  have h := sortIfNeeded_spec ascOrder sortSlice (by
    intro a b c h1 h2
    simp only [ascOrder, Time.Before, decide_eq_false_iff_not] at *
    linarith) hs gens
  refine ⟨h.1, h.2.imp ?_⟩
  intro a b hab
  simp only [ascOrder, Time.Before, decide_eq_false_iff_not] at hab
  linarith

/-- The sorted slice of generations, seen through the indexing the source uses. -/
theorem gen_sorted_facts (sortSlice : List Generation → List Generation)
    (hs : SortsBy ascOrder sortSlice) (gens : List Generation) :
    (∀ j, j < gens.length →
      (SortByCreatedDateAsc sortSlice gens).getD j Generation.zero ∈ gens) ∧
    (∀ u ∈ gens, ∃ j, j < gens.length ∧
      (SortByCreatedDateAsc sortSlice gens).getD j Generation.zero = u) ∧
    (∀ i j, i ≤ j → j < gens.length →
      ((SortByCreatedDateAsc sortSlice gens).getD i Generation.zero).Created ≤
        ((SortByCreatedDateAsc sortSlice gens).getD j Generation.zero).Created) := by
  obtain ⟨hperm, hsorted⟩ := gen_sorted_spec sortSlice hs gens
  have hlen : (SortByCreatedDateAsc sortSlice gens).length = gens.length := hperm.length_eq
  refine ⟨?_, ?_, ?_⟩
  · intro j hj
    rw [List.getD_eq_getElem _ _ (by omega)]
    exact hperm.subset (List.getElem_mem _)
  · intro u hu
    obtain ⟨n, hn, hnu⟩ := List.mem_iff_getElem.mp (hperm.symm.subset hu)
    exact ⟨n, by omega, by rw [List.getD_eq_getElem _ _ hn]; exact hnu⟩
  · intro i j hij hj
    rw [List.getD_eq_getElem _ _ (by omega), List.getD_eq_getElem _ _ (by omega)]
    rcases Nat.lt_or_eq_of_le hij with h | h
    · exact (List.pairwise_iff_getElem.mp hsorted) i j (by omega) (by omega) h
    · subst h; exact le_refl _

theorem gen_scanDown_spec (s : List Generation) (t : Time) (n : Nat) :
    (scanDown s t n = PathState.zero ∧
        ∀ i, i < n → ¬ (s.getD i Generation.zero).Created < t) ∨
    (∃ i, i < n ∧ (s.getD i Generation.zero).Created < t ∧
        (∀ j, i < j → j < n → ¬ (s.getD j Generation.zero).Created < t) ∧
        scanDown s t n = StateOfGenerationAtTime (s.getD i Generation.zero) t) := by
  induction n with
  | zero => left; exact ⟨rfl, by intro i hi; omega⟩
  | succ n ih =>
    unfold scanDown
    by_cases h : (s.getD n Generation.zero).Created < t
    · right
      refine ⟨n, by omega, h, by intro j h1 h2; omega, ?_⟩
      simp only [Time.After, h, decide_True, if_true]
    · simp only [Time.After, h, decide_False]
      rcases ih with ⟨h0, hall⟩ | ⟨i, hi, hlt, hafter, heq⟩
      · left
        refine ⟨by simpa using h0, ?_⟩
        intro i hi
        rcases Nat.lt_or_eq_of_le (Nat.le_of_lt_succ hi) with h1 | h1
        · exact hall i h1
        · subst h1; exact h
      · right
        refine ⟨i, by omega, hlt, ?_, by simpa using heq⟩
        intro j h1 h2
        rcases Nat.lt_or_eq_of_le (Nat.le_of_lt_succ h2) with h3 | h3
        · exact hafter j h1 h3
        · subst h3; exact h

theorem gen_stateDiffAtTime_eq (sortSlice : List Generation → List Generation)
    (gens : List Generation) (t : Time) (hne : gens ≠ []) :
    StateDiffAtTime sortSlice gens t =
      (if ((SortByCreatedDateAsc sortSlice gens).getD (gens.length - 1)
            Generation.zero).Created < t then
          StateOfGenerationAtTime
            ((SortByCreatedDateAsc sortSlice gens).getD (gens.length - 1) Generation.zero) t
        else if t < ((SortByCreatedDateAsc sortSlice gens).getD 0 Generation.zero).Created then
          ⟨NOT_EXISTENT, 0,
            ((SortByCreatedDateAsc sortSlice gens).getD 0 Generation.zero).Name, []⟩
        else scanDown (SortByCreatedDateAsc sortSlice gens) t gens.length,
       StateOfGeneration
        ((SortByCreatedDateAsc sortSlice gens).getD (gens.length - 1) Generation.zero)) := by
  have hlen : gens.length ≠ 0 := by
    intro h; exact hne (List.length_eq_zero.mp h)
  unfold StateDiffAtTime
  simp only [hlen, if_false, Time.After, Time.Before, decide_eq_true_eq]
  split_ifs <;> rfl

/-- The state at `t` on the GCS side, in terms of the input slice (in any order). -/
theorem gen_desired_spec (sortSlice : List Generation → List Generation)
    (hs : SortsBy ascOrder sortSlice) (gens : List Generation) (t : Time) (hne : gens ≠ []) :
    ((∀ g ∈ gens, ¬ g.Created < t) ∧
      (((StateDiffAtTime sortSlice gens t).1 = PathState.zero ∧
          ∃ f ∈ gens, f.Created = t) ∨
        (∃ f ∈ gens, t < f.Created ∧
          (StateDiffAtTime sortSlice gens t).1 = ⟨NOT_EXISTENT, 0, f.Name, []⟩))) ∨
    (∃ g, IsLatestBefore gens t g ∧
      (StateDiffAtTime sortSlice gens t).1 = StateOfGenerationAtTime g t) := by
  obtain ⟨hmem, hidx, hmono⟩ := gen_sorted_facts sortSlice hs gens
  have hn : 0 < gens.length := List.length_pos.mpr hne
  rw [gen_stateDiffAtTime_eq sortSlice gens t hne]
  by_cases h1 : ((SortByCreatedDateAsc sortSlice gens).getD (gens.length - 1)
      Generation.zero).Created < t
  · right
    refine ⟨_, ⟨hmem (gens.length - 1) (by omega), h1, ?_⟩, ?_⟩
    · intro u hu _
      obtain ⟨j, hj, rfl⟩ := hidx u hu
      exact hmono j (gens.length - 1) (by omega) (by omega)
    · simp only [if_pos h1]
  · simp only [if_neg h1]
    by_cases h2 : t < ((SortByCreatedDateAsc sortSlice gens).getD 0 Generation.zero).Created
    · left
      simp only [if_pos h2]
      refine ⟨?_, Or.inr ⟨_, hmem 0 hn, h2, rfl⟩⟩
      intro v hv hlt
      obtain ⟨j, hj, rfl⟩ := hidx v hv
      have := hmono 0 j (by omega) hj
      linarith
    · simp only [if_neg h2]
      rcases gen_scanDown_spec (SortByCreatedDateAsc sortSlice gens) t gens.length with
        ⟨h0, hall⟩ | ⟨i, hi, hlt, hafter, heq⟩
      · left
        refine ⟨?_, Or.inl ⟨h0, _, hmem 0 hn, ?_⟩⟩
        · intro v hv hlt
          obtain ⟨j, hj, rfl⟩ := hidx v hv
          exact hall j hj hlt
        · have := hall 0 hn
          linarith
      · right
        refine ⟨_, ⟨hmem i hi, hlt, ?_⟩, heq⟩
        intro u hu hult
        obtain ⟨j, hj, rfl⟩ := hidx u hu
        by_cases hji : j ≤ i
        · exact hmono j i hji hi
        · exact absurd hult (hafter j (by omega) hj)

theorem gen_isLatestBefore_unique (gens : List Generation) (t : Time)
    (hd : gens.Pairwise (fun a b => a.Created ≠ b.Created))
    (v w : Generation) (hv : IsLatestBefore gens t v) (hw : IsLatestBefore gens t w) :
    v = w := by
  by_contra hne
  have hsymm : Symmetric (fun a b : Generation => a.Created ≠ b.Created) :=
    fun _ _ h => Ne.symm h
  have h := hd.forall hsymm hv.1 hw.1 hne
  have h1 := hv.2.2 w hw.1 hw.2.1
  have h2 := hw.2.2 v hv.1 hv.2.1
  exact h (le_antisymm h2 h1)

end Gcp

/-! ## Boundary cases of the state reconstruction -/

/-- C11. `StateDiffAtTime`, S3 and GCS, on a non-empty slice of versions of one key `k` (in
any order) and an instant `t` strictly before the creation timestamp of every version: the
state at `t` has status `NOT_EXISTENT` and carries the key `k` (`Key` on S3, `Name` on
GCS). -/
theorem before_all_history_is_not_existent :
    (∀ (sortSlice : List Aws.Version → List Aws.Version), SortsBy Aws.ascOrder sortSlice →
      ∀ (vs : List Aws.Version) (k : String) (t : Time), vs ≠ [] →
      (∀ v ∈ vs, v.Key = k) → (∀ v ∈ vs, t < v.LastModified) →
      (Aws.StateDiffAtTime sortSlice vs t).1.PathStatus = Aws.NOT_EXISTENT ∧
      (Aws.StateDiffAtTime sortSlice vs t).1.Version.Key = k) ∧
    (∀ (sortSlice : List Gcp.Generation → List Gcp.Generation),
      SortsBy Gcp.ascOrder sortSlice →
      ∀ (gens : List Gcp.Generation) (k : String) (t : Time), gens ≠ [] →
      (∀ g ∈ gens, g.Name = k) → (∀ g ∈ gens, t < g.Created) →
      (Gcp.StateDiffAtTime sortSlice gens t).1.PathStatus = Gcp.NOT_EXISTENT ∧
      (Gcp.StateDiffAtTime sortSlice gens t).1.Name = k) := by
  constructor
  · intro sortSlice hs vs k t hne hk hbefore
    rcases Aws.desired_spec sortSlice hs vs t hne with
      ⟨_, ⟨_, f, hf, hft⟩ | ⟨f, hf, _, heq⟩⟩ | ⟨v, hv, _⟩
    · have := hbefore f hf
      rw [hft] at this
      exact absurd this (lt_irrefl _)
    · rw [heq]
      exact ⟨rfl, hk f hf⟩
    · exact absurd hv.2.1 (not_lt.mpr (le_of_lt (hbefore v hv.1)))
  · intro sortSlice hs gens k t hne hk hbefore
    rcases Gcp.gen_desired_spec sortSlice hs gens t hne with
      ⟨_, ⟨_, f, hf, hft⟩ | ⟨f, hf, _, heq⟩⟩ | ⟨v, hv, _⟩
    · have := hbefore f hf
      rw [hft] at this
      exact absurd this (lt_irrefl _)
    · rw [heq]
      exact ⟨rfl, hk f hf⟩
    · exact absurd hv.2.1 (not_lt.mpr (le_of_lt (hbefore v hv.1)))

/-- Witness of C11 (scenario S3): the history of `a.txt` at `T = 5`, before its first
version. -/
theorem before_all_history_is_not_existent_witness :
    SortsBy Aws.ascOrder (insertionSlice Aws.ascOrder) ∧ Aws.historyOfA ≠ [] ∧
    (∀ v ∈ Aws.historyOfA, v.Key = "a.txt") ∧ (∀ v ∈ Aws.historyOfA, 5 < v.LastModified) ∧
    (Aws.StateDiffAtTime (insertionSlice Aws.ascOrder) Aws.historyOfA 5).1.PathStatus
      = Aws.NOT_EXISTENT ∧
    (Aws.StateDiffAtTime (insertionSlice Aws.ascOrder) Aws.historyOfA 5).1.Version.Key
      = "a.txt" :=
  ⟨Aws.ascOrder_sortsBy, by decide, by decide, by decide,
    before_all_history_is_not_existent.1 (insertionSlice Aws.ascOrder) Aws.ascOrder_sortsBy
      Aws.historyOfA "a.txt" 5 (by decide) (by decide) (by decide)⟩

/-- C12. S3 `StateDiffAtTime`, on a non-empty slice of versions with pairwise distinct
`LastModified` (in any order): the second result is `StateOfVersion` of the version `m` with
the greatest `LastModified`, that is, a state with status `DELETED` when `m` is a delete
marker and `EXISTS` otherwise, carrying `m` (its ID, `LastModified`, ETag and size); it is the
same for every instant. -/
theorem aws_current_state_is_state_of_latest (sortSlice : List Aws.Version → List Aws.Version)
    (hs : SortsBy Aws.ascOrder sortSlice) (vs : List Aws.Version) (t : Time) (hne : vs ≠ [])
    (hd : vs.Pairwise (fun a b => a.LastModified ≠ b.LastModified)) :
    (∀ m ∈ vs, (∀ u ∈ vs, u.LastModified ≤ m.LastModified) →
      (Aws.StateDiffAtTime sortSlice vs t).2 = Aws.StateOfVersion m ∧
      (Aws.StateDiffAtTime sortSlice vs t).2.PathStatus
        = (if m.IsDeleteMarker then Aws.DELETED else Aws.EXISTS) ∧
      (Aws.StateDiffAtTime sortSlice vs t).2.Version.ID = m.ID ∧
      (Aws.StateDiffAtTime sortSlice vs t).2.Version.LastModified = m.LastModified ∧
      (Aws.StateDiffAtTime sortSlice vs t).2.Version.ETag = m.ETag ∧
      (Aws.StateDiffAtTime sortSlice vs t).2.Version.Size = m.Size) ∧
    (∃ m ∈ vs, ∀ u ∈ vs, u.LastModified ≤ m.LastModified) ∧
    (∀ t' : Time, (Aws.StateDiffAtTime sortSlice vs t').2
      = (Aws.StateDiffAtTime sortSlice vs t).2) := by
  obtain ⟨m0, hm0, hmax0, heq0⟩ := Aws.current_spec sortSlice hs vs t hne
  refine ⟨?_, ⟨m0, hm0, hmax0⟩, ?_⟩
  · intro m hm hmax
    have hsymm : Symmetric (fun a b : Aws.Version => a.LastModified ≠ b.LastModified) :=
      fun _ _ h => Ne.symm h
    have hmm : m0 = m := by
      by_contra hne'
      exact hd.forall hsymm hm0 hm hne' (le_antisymm (hmax m0 hm0) (hmax0 m hm))
    subst hmm
    rw [heq0, Aws.stateOfVersion_status, Aws.stateOfVersion_version]
    exact ⟨rfl, rfl, rfl, rfl, rfl, rfl⟩
  · intro t'
    rw [Aws.stateDiffAtTime_eq sortSlice vs t hne, Aws.stateDiffAtTime_eq sortSlice vs t' hne]

/-- Witness of C12: a history that holds only a delete marker is reported as `DELETED`. -/
theorem aws_current_state_is_state_of_latest_witness :
    SortsBy Aws.ascOrder (insertionSlice Aws.ascOrder) ∧ Aws.markerOnly ≠ [] ∧
    Aws.markerOnly.Pairwise (fun a b => a.LastModified ≠ b.LastModified) ∧
    (Aws.StateDiffAtTime (insertionSlice Aws.ascOrder) Aws.markerOnly 25).2.PathStatus
      = Aws.DELETED ∧
    (Aws.StateDiffAtTime (insertionSlice Aws.ascOrder) Aws.markerOnly 25).2.Version.ID
      = "m1" :=
  have h := (aws_current_state_is_state_of_latest (insertionSlice Aws.ascOrder)
    Aws.ascOrder_sortsBy Aws.markerOnly 25 (by decide) (by decide)).1
      ⟨"a.txt", "m1", 20, true, true, "", 0⟩ (by decide) (by decide)
  ⟨Aws.ascOrder_sortsBy, by decide, by decide, h.2.1, h.2.2.1⟩

/-- C13. `StateDiffAtTime`, S3 and GCS, on the empty slice: both returned states have status
`NOT_EXISTENT`, for every instant and whatever the sorting routine. -/
theorem empty_history_is_not_existent :
    (∀ (sortSlice : List Aws.Version → List Aws.Version) (t : Time),
      (Aws.StateDiffAtTime sortSlice [] t).1.PathStatus = Aws.NOT_EXISTENT ∧
      (Aws.StateDiffAtTime sortSlice [] t).2.PathStatus = Aws.NOT_EXISTENT) ∧
    (∀ (sortSlice : List Gcp.Generation → List Gcp.Generation) (t : Time),
      (Gcp.StateDiffAtTime sortSlice [] t).1.PathStatus = Gcp.NOT_EXISTENT ∧
      (Gcp.StateDiffAtTime sortSlice [] t).2.PathStatus = Gcp.NOT_EXISTENT) :=
  ⟨fun _ _ => ⟨rfl, rfl⟩, fun _ _ => ⟨rfl, rfl⟩⟩

/-- C14. GCS `StateOfGenerationAtTime`: the result agrees with `StateOfGeneration` in
generation, name and MD5; its status is `DELETED` exactly when the generation has a non-zero
deletion time strictly before `t`, and `EXISTS` otherwise, so a deleted generation whose
deletion time is at or after `t` yields `EXISTS`. -/
theorem gcp_stateOfGenerationAtTime_spec (g : Gcp.Generation) (t : Time) :
    (Gcp.StateOfGenerationAtTime g t).Generation = (Gcp.StateOfGeneration g).Generation ∧
    (Gcp.StateOfGenerationAtTime g t).Name = (Gcp.StateOfGeneration g).Name ∧
    (Gcp.StateOfGenerationAtTime g t).MD5 = (Gcp.StateOfGeneration g).MD5 ∧
    ((Gcp.StateOfGenerationAtTime g t).PathStatus = Gcp.DELETED ↔
      (Time.IsZero g.Deleted = false ∧ g.Deleted < t)) ∧
    (¬ (Time.IsZero g.Deleted = false ∧ g.Deleted < t) →
      (Gcp.StateOfGenerationAtTime g t).PathStatus = Gcp.EXISTS) ∧
    (Time.IsZero g.Deleted = false → t ≤ g.Deleted →
      (Gcp.StateOfGeneration g).PathStatus = Gcp.DELETED ∧
      (Gcp.StateOfGenerationAtTime g t).PathStatus = Gcp.EXISTS) := by
  unfold Gcp.StateOfGenerationAtTime Gcp.StateOfGeneration
  by_cases hz : Time.IsZero g.Deleted = true
  · simp [hz]
  · have hz' : Time.IsZero g.Deleted = false := by simpa using hz
    by_cases hlt : g.Deleted < t
    · simp [hz', hlt, Time.Before, not_le.mpr hlt]
    · simp [hz', hlt, Time.Before]

/-- Witness of C14: generation 200 is deleted at 40; at `T = 40` and at `T = 30` it still
counts as `EXISTS`, although `StateOfGeneration` reports it `DELETED`. -/
theorem gcp_stateOfGenerationAtTime_spec_witness :
    Time.IsZero Gcp.g200.Deleted = false ∧ (40 : Time) ≤ Gcp.g200.Deleted ∧
    (Gcp.StateOfGeneration Gcp.g200).PathStatus = Gcp.DELETED ∧
    (Gcp.StateOfGenerationAtTime Gcp.g200 40).PathStatus = Gcp.EXISTS :=
  ⟨by decide, by decide,
    (gcp_stateOfGenerationAtTime_spec Gcp.g200 40).2.2.2.2.2 (by decide) (by decide)⟩

/-! ## Future versions do not affect the past -/

theorem sliceIsSorted_of_pairwise {α : Type} (less : α → α → Bool) (l : List α)
    (h : l.Pairwise (fun a b => less b a = false)) : SliceIsSorted less l = true := by
  induction l with
  | nil => rfl
  | cons a l ih =>
    cases l with
    | nil => rfl
    | cons b rest =>
      rw [List.pairwise_cons] at h
      simp only [SliceIsSorted, Bool.and_eq_true, Bool.not_eq_true']
      exact ⟨h.1 b (List.mem_cons_self b rest), ih h.2⟩

namespace Aws

theorem sortByLastModifiedAsc_of_sorted (sortSlice : List Version → List Version)
    (vs : List Version) (h : vs.Pairwise (fun a b => a.LastModified < b.LastModified)) :
    SortByLastModifiedAsc sortSlice vs = vs := by
  apply sortIfNeeded_of_sorted
  apply sliceIsSorted_of_pairwise
  refine h.imp ?_
  intro a b hab
  simp only [ascOrder, Time.Before, decide_eq_false_iff_not]
  exact not_lt.mpr (le_of_lt hab)

theorem stateDiffAtTime_of_sorted (sortSlice sortSlice' : List Version → List Version)
    (vs : List Version) (t : Time)
    (h : vs.Pairwise (fun a b => a.LastModified < b.LastModified)) :
    StateDiffAtTime sortSlice vs t = StateDiffAtTime sortSlice' vs t := by
  unfold StateDiffAtTime
  rw [sortByLastModifiedAsc_of_sorted sortSlice vs h,
    sortByLastModifiedAsc_of_sorted sortSlice' vs h]

/-- A shorter form of `desired_spec`, for the status only. -/
theorem desired_status_spec (sortSlice : List Version → List Version)
    (hs : SortsBy ascOrder sortSlice) (vs : List Version) (t : Time) (hne : vs ≠ []) :
    ((∀ v ∈ vs, ¬ v.LastModified < t) ∧
      (StateDiffAtTime sortSlice vs t).1.PathStatus = NOT_EXISTENT) ∨
    (∃ v, IsLatestBefore vs t v ∧ (StateDiffAtTime sortSlice vs t).1 = StateOfVersion v) := by
  rcases desired_spec sortSlice hs vs t hne with
    ⟨hnone, ⟨h0, _⟩ | ⟨f, _, _, hf⟩⟩ | h
  · left; exact ⟨hnone, by rw [h0]; rfl⟩
  · left; exact ⟨hnone, by rw [hf]⟩
  · right; exact h

theorem past_only (sortSlice : List Version → List Version)
    (hs : SortsBy ascOrder sortSlice) (vs : List Version) (t : Time)
    (hd : vs.Pairwise (fun a b => a.LastModified ≠ b.LastModified)) :
    (StateDiffAtTime sortSlice vs t).1.PathStatus =
      (StateDiffAtTime sortSlice (vs.filter (fun v => decide (v.LastModified < t)))
        t).1.PathStatus := by
  have hmemf : ∀ u, u ∈ vs.filter (fun v => decide (v.LastModified < t)) ↔
      u ∈ vs ∧ u.LastModified < t := by
    intro u; simp [List.mem_filter]
  by_cases hvs : vs = []
  · subst hvs; rfl
  by_cases hfl : vs.filter (fun v => decide (v.LastModified < t)) = []
  · rw [hfl]
    have hnone : ∀ v ∈ vs, ¬ v.LastModified < t := by
      intro v hv hlt
      have : v ∈ vs.filter (fun v => decide (v.LastModified < t)) := (hmemf v).mpr ⟨hv, hlt⟩
      rw [hfl] at this
      exact absurd this (List.not_mem_nil v)
    rcases desired_status_spec sortSlice hs vs t hvs with ⟨_, hst⟩ | ⟨v, hv, _⟩
    · rw [hst]; rfl
    · exact absurd hv.2.1 (hnone v hv.1)
  · rcases desired_status_spec sortSlice hs _ t hfl with ⟨hnone', _⟩ | ⟨v', hv', heq'⟩
    · obtain ⟨x, hx⟩ := List.exists_mem_of_ne_nil _ hfl
      exact absurd ((hmemf x).mp hx).2 (hnone' x hx)
    · have hv'' : IsLatestBefore vs t v' :=
        ⟨((hmemf v').mp hv'.1).1, hv'.2.1,
          fun u hu hlt => hv'.2.2 u ((hmemf u).mpr ⟨hu, hlt⟩) hlt⟩
      rcases desired_status_spec sortSlice hs vs t hvs with ⟨hnone, _⟩ | ⟨v, hv, heq⟩
      · exact absurd hv''.2.1 (hnone v' hv''.1)
      · have := isLatestBefore_unique vs t hd v v' hv hv''
        subst this
        rw [heq, heq']

end Aws

namespace Gcp

theorem sortByCreatedDateAsc_of_sorted (sortSlice : List Generation → List Generation)
    (gens : List Generation) (h : gens.Pairwise (fun a b => a.Created < b.Created)) :
    SortByCreatedDateAsc sortSlice gens = gens := by
  apply sortIfNeeded_of_sorted
  apply sliceIsSorted_of_pairwise
  refine h.imp ?_
  intro a b hab
  simp only [ascOrder, Time.Before, decide_eq_false_iff_not]
  exact not_lt.mpr (le_of_lt hab)

theorem gen_stateDiffAtTime_of_sorted (sortSlice sortSlice' : List Generation → List Generation)
    (gens : List Generation) (t : Time)
    (h : gens.Pairwise (fun a b => a.Created < b.Created)) :
    StateDiffAtTime sortSlice gens t = StateDiffAtTime sortSlice' gens t := by
  unfold StateDiffAtTime
  rw [sortByCreatedDateAsc_of_sorted sortSlice gens h,
    sortByCreatedDateAsc_of_sorted sortSlice' gens h]

/-- A shorter form of `gen_desired_spec`, for the status only. -/
theorem gen_desired_status_spec (sortSlice : List Generation → List Generation)
    (hs : SortsBy ascOrder sortSlice) (gens : List Generation) (t : Time) (hne : gens ≠ []) :
    ((∀ g ∈ gens, ¬ g.Created < t) ∧
      (StateDiffAtTime sortSlice gens t).1.PathStatus = NOT_EXISTENT) ∨
    (∃ g, IsLatestBefore gens t g ∧
      (StateDiffAtTime sortSlice gens t).1 = StateOfGenerationAtTime g t) := by
  rcases gen_desired_spec sortSlice hs gens t hne with
    ⟨hnone, ⟨h0, _⟩ | ⟨f, _, _, hf⟩⟩ | h
  · left; exact ⟨hnone, by rw [h0]; rfl⟩
  · left; exact ⟨hnone, by rw [hf]⟩
  · right; exact h

theorem gen_past_only (sortSlice : List Generation → List Generation)
    (hs : SortsBy ascOrder sortSlice) (gens : List Generation) (t : Time)
    (hd : gens.Pairwise (fun a b => a.Created ≠ b.Created)) :
    (StateDiffAtTime sortSlice gens t).1.PathStatus =
      (StateDiffAtTime sortSlice (gens.filter (fun g => decide (g.Created < t)))
        t).1.PathStatus := by
  have hmemf : ∀ u, u ∈ gens.filter (fun g => decide (g.Created < t)) ↔
      u ∈ gens ∧ u.Created < t := by
    intro u; simp [List.mem_filter]
  by_cases hvs : gens = []
  · subst hvs; rfl
  by_cases hfl : gens.filter (fun g => decide (g.Created < t)) = []
  · rw [hfl]
    have hnone : ∀ g ∈ gens, ¬ g.Created < t := by
      intro v hv hlt
      have : v ∈ gens.filter (fun g => decide (g.Created < t)) := (hmemf v).mpr ⟨hv, hlt⟩
      rw [hfl] at this
      exact absurd this (List.not_mem_nil v)
    rcases gen_desired_status_spec sortSlice hs gens t hvs with ⟨_, hst⟩ | ⟨v, hv, _⟩
    · rw [hst]; rfl
    · exact absurd hv.2.1 (hnone v hv.1)
  · rcases gen_desired_status_spec sortSlice hs _ t hfl with ⟨hnone', _⟩ | ⟨v', hv', heq'⟩
    · obtain ⟨x, hx⟩ := List.exists_mem_of_ne_nil _ hfl
      exact absurd ((hmemf x).mp hx).2 (hnone' x hx)
    · have hv'' : IsLatestBefore gens t v' :=
        ⟨((hmemf v').mp hv'.1).1, hv'.2.1,
          fun u hu hlt => hv'.2.2 u ((hmemf u).mpr ⟨hu, hlt⟩) hlt⟩
      rcases gen_desired_status_spec sortSlice hs gens t hvs with ⟨hnone, _⟩ | ⟨v, hv, heq⟩
      · exact absurd hv''.2.1 (hnone v' hv''.1)
      · have := gen_isLatestBefore_unique gens t hd v v' hv hv''
        subst this
        rw [heq, heq']

end Gcp

/-- C15. Future versions do not affect the past, S3 and GCS: for a slice of versions sorted
ascending with pairwise distinct creation timestamps and every instant `t`, the status of the
state at `t` that `StateDiffAtTime` returns on the whole slice equals the status it returns on
the sub-slice of the versions whose creation timestamp is strictly before `t`; this holds
whatever the sorting routine, which a sorted slice never reaches. -/
theorem future_versions_do_not_affect_the_past :
    (∀ (sortSlice : List Aws.Version → List Aws.Version) (vs : List Aws.Version) (t : Time),
      vs.Pairwise (fun a b => a.LastModified < b.LastModified) →
      (Aws.StateDiffAtTime sortSlice vs t).1.PathStatus =
        (Aws.StateDiffAtTime sortSlice (vs.filter (fun v => decide (v.LastModified < t)))
          t).1.PathStatus) ∧
    (∀ (sortSlice : List Gcp.Generation → List Gcp.Generation) (gens : List Gcp.Generation)
      (t : Time), gens.Pairwise (fun a b => a.Created < b.Created) →
      (Gcp.StateDiffAtTime sortSlice gens t).1.PathStatus =
        (Gcp.StateDiffAtTime sortSlice (gens.filter (fun g => decide (g.Created < t)))
          t).1.PathStatus) := by
  constructor
  · intro sortSlice vs t hsorted
    rw [Aws.stateDiffAtTime_of_sorted sortSlice (insertionSlice Aws.ascOrder) vs t hsorted,
      Aws.stateDiffAtTime_of_sorted sortSlice (insertionSlice Aws.ascOrder) _ t
        (hsorted.filter _)]
    exact Aws.past_only _ Aws.ascOrder_sortsBy vs t (hsorted.imp (fun h => ne_of_lt h))
  · intro sortSlice gens t hsorted
    rw [Gcp.gen_stateDiffAtTime_of_sorted sortSlice (insertionSlice Gcp.ascOrder) gens t hsorted,
      Gcp.gen_stateDiffAtTime_of_sorted sortSlice (insertionSlice Gcp.ascOrder) _ t
        (hsorted.filter _)]
    exact Gcp.gen_past_only _ Gcp.gen_ascOrder_sortsBy gens t (hsorted.imp (fun h => ne_of_lt h))

/-- Witness of C15: the sorted history `v1, v2, v3` at `T = 25`; the sub-slice before 25 is
`v1, v2`, and on both the state at 25 is `DELETED`. -/
theorem future_versions_do_not_affect_the_past_witness :
    Aws.sortedHistoryOfA.Pairwise (fun a b => a.LastModified < b.LastModified) ∧
    Aws.sortedHistoryOfA.filter (fun v => decide (v.LastModified < 25)) = [Aws.v1, Aws.v2] ∧
    (Aws.StateDiffAtTime (insertionSlice Aws.ascOrder) Aws.sortedHistoryOfA 25).1.PathStatus
      = Aws.DELETED ∧
    (Aws.StateDiffAtTime (insertionSlice Aws.ascOrder) Aws.sortedHistoryOfA 25).1.PathStatus =
      (Aws.StateDiffAtTime (insertionSlice Aws.ascOrder)
        (Aws.sortedHistoryOfA.filter (fun v => decide (v.LastModified < 25))) 25).1.PathStatus :=
  ⟨by decide, by decide, by decide,
    future_versions_do_not_affect_the_past.1 (insertionSlice Aws.ascOrder)
      Aws.sortedHistoryOfA 25 (by decide)⟩

/-! ## Versions with the same timestamp -/

/-- C16, counterexample. The slices `[tiedLive, tiedMarker]` and `[tiedMarker, tiedLive]` hold
the same two versions of `a.txt`, both modified at 10, in the two possible orders. Both are
already sorted, so no sorting routine is run, and at `T = 20` the first gives `DELETED` and the
second `EXISTS`, for the state at `T` as for the current state. -/
theorem aws_status_depends_on_order_of_ties :
    [Aws.tiedLive, Aws.tiedMarker].Perm [Aws.tiedMarker, Aws.tiedLive] ∧
    [Aws.tiedLive, Aws.tiedMarker].map (fun v => v.LastModified)
      = [Aws.tiedMarker, Aws.tiedLive].map (fun v => v.LastModified) ∧
    (∀ sortSlice : List Aws.Version → List Aws.Version,
      (Aws.StateDiffAtTime sortSlice [Aws.tiedLive, Aws.tiedMarker] 20).1.PathStatus
        = Aws.DELETED ∧
      (Aws.StateDiffAtTime sortSlice [Aws.tiedLive, Aws.tiedMarker] 20).2.PathStatus
        = Aws.DELETED ∧
      (Aws.StateDiffAtTime sortSlice [Aws.tiedMarker, Aws.tiedLive] 20).1.PathStatus
        = Aws.EXISTS ∧
      (Aws.StateDiffAtTime sortSlice [Aws.tiedMarker, Aws.tiedLive] 20).2.PathStatus
        = Aws.EXISTS) :=
  ⟨List.Perm.swap _ _ _, rfl, fun _ => ⟨rfl, rfl, rfl, rfl⟩⟩

/-- C16, amended. S3 `StateDiffAtTime`: for every instant `t` and any two slices of versions
that are permutations of each other, provided that versions with the same `LastModified` are
all delete markers or all live, the statuses of both returned states (the state at `t` and the
current state) are the same for the two slices. -/
theorem aws_status_invariant_under_permutation
    (sortSlice : List Aws.Version → List Aws.Version) (hs : SortsBy Aws.ascOrder sortSlice)
    (l₁ l₂ : List Aws.Version) (t : Time) (hperm : l₁.Perm l₂)
    (hties : ∀ a ∈ l₁, ∀ b ∈ l₁, a.LastModified = b.LastModified →
      a.IsDeleteMarker = b.IsDeleteMarker) :
    (Aws.StateDiffAtTime sortSlice l₁ t).1.PathStatus
      = (Aws.StateDiffAtTime sortSlice l₂ t).1.PathStatus ∧
    (Aws.StateDiffAtTime sortSlice l₁ t).2.PathStatus
      = (Aws.StateDiffAtTime sortSlice l₂ t).2.PathStatus := by
  by_cases h1 : l₁ = []
  · subst h1
    rw [List.Perm.nil_eq hperm]
    exact ⟨rfl, rfl⟩
  have h2 : l₂ ≠ [] := fun h => h1 (by rw [h] at hperm; exact List.Perm.eq_nil hperm)
  have hmem : ∀ u, u ∈ l₂ ↔ u ∈ l₁ := fun u => hperm.symm.mem_iff
  constructor
  · rcases Aws.desired_status_spec sortSlice hs l₁ t h1 with ⟨hnone, hst⟩ | ⟨v, hv, heq⟩
    · rcases Aws.desired_status_spec sortSlice hs l₂ t h2 with ⟨_, hst'⟩ | ⟨v', hv', _⟩
      · rw [hst, hst']
      · exact absurd hv'.2.1 (hnone v' ((hmem v').mp hv'.1))
    · rcases Aws.desired_status_spec sortSlice hs l₂ t h2 with ⟨hnone', _⟩ | ⟨v', hv', heq'⟩
      · exact absurd hv.2.1 (hnone' v ((hmem v).mpr hv.1))
      · have hle1 := hv.2.2 v' ((hmem v').mp hv'.1) hv'.2.1
        have hle2 := hv'.2.2 v ((hmem v).mpr hv.1) hv.2.1
        have hm := hties v hv.1 v' ((hmem v').mp hv'.1) (le_antisymm hle2 hle1)
        rw [heq, heq', Aws.stateOfVersion_status, Aws.stateOfVersion_status, hm]
  · obtain ⟨m, hm, hmax, heq⟩ := Aws.current_spec sortSlice hs l₁ t h1
    obtain ⟨m', hm', hmax', heq'⟩ := Aws.current_spec sortSlice hs l₂ t h2
    have hle1 := hmax m' ((hmem m').mp hm')
    have hle2 := hmax' m ((hmem m).mpr hm)
    have hmk := hties m hm m' ((hmem m').mp hm') (le_antisymm hle2 hle1)
    rw [heq, heq', Aws.stateOfVersion_status, Aws.stateOfVersion_status, hmk]

/-- Witness of the amended C16: the history of `a.txt` as listed and sorted, at `T = 25`. -/
theorem aws_status_invariant_under_permutation_witness :
    SortsBy Aws.ascOrder (insertionSlice Aws.ascOrder) ∧
    Aws.historyOfA.Perm Aws.sortedHistoryOfA ∧
    (Aws.StateDiffAtTime (insertionSlice Aws.ascOrder) Aws.historyOfA 25).1.PathStatus
      = (Aws.StateDiffAtTime (insertionSlice Aws.ascOrder)
          Aws.sortedHistoryOfA 25).1.PathStatus ∧
    (Aws.StateDiffAtTime (insertionSlice Aws.ascOrder) Aws.historyOfA 25).2.PathStatus
      = (Aws.StateDiffAtTime (insertionSlice Aws.ascOrder)
          Aws.sortedHistoryOfA 25).2.PathStatus :=
  ⟨Aws.ascOrder_sortsBy, by decide,
    aws_status_invariant_under_permutation (insertionSlice Aws.ascOrder) Aws.ascOrder_sortsBy
      Aws.historyOfA Aws.sortedHistoryOfA 25 (by decide) (by decide)⟩

/-! ## The decision table as a whole -/

/-- C17. `ActionForStateChange`, S3 and GCS: when the current status is `NOT_EXISTENT` the
result is `NO_ACTION` for every desired state, also when the desired status is `EXISTS`. -/
theorem not_existent_is_no_action :
    (∀ cur des : Aws.PathState, cur.PathStatus = Aws.NOT_EXISTENT →
      (Aws.ActionForStateChange cur des).Action = Aws.NO_ACTION) ∧
    (∀ cur des : Gcp.PathState, cur.PathStatus = Gcp.NOT_EXISTENT →
      (Gcp.ActionForStateChange cur des).Action = Gcp.NO_ACTION) := by
  constructor
  · intro cur des hc
    unfold Aws.ActionForStateChange
    simp [hc]
  · intro cur des hc
    unfold Gcp.ActionForStateChange
    simp [hc]

/-- Witness of C17: current `NOT_EXISTENT`, desired `EXISTS` at `v1`. -/
theorem not_existent_is_no_action_witness :
    (Aws.PathState.zero).PathStatus = Aws.NOT_EXISTENT ∧
    (Aws.StateOfVersion Aws.v1).PathStatus = Aws.EXISTS ∧
    (Aws.ActionForStateChange Aws.PathState.zero (Aws.StateOfVersion Aws.v1)).Action
      = Aws.NO_ACTION :=
  ⟨rfl, by decide,
    not_existent_is_no_action.1 Aws.PathState.zero (Aws.StateOfVersion Aws.v1) rfl⟩

/-- C18. `ActionForStateChange`, S3 and GCS, is total: for every pair of states, whatever
their status values (the three enumerated ones or any other integer), it returns a
`FileAction` whose kind is `CREATE`, `DELETE` or `NO_ACTION`. -/
theorem action_kind_is_enumerated :
    (∀ cur des : Aws.PathState,
      (Aws.ActionForStateChange cur des).Action = Aws.CREATE ∨
      (Aws.ActionForStateChange cur des).Action = Aws.DELETE ∨
      (Aws.ActionForStateChange cur des).Action = Aws.NO_ACTION) ∧
    (∀ cur des : Gcp.PathState,
      (Gcp.ActionForStateChange cur des).Action = Gcp.CREATE ∨
      (Gcp.ActionForStateChange cur des).Action = Gcp.DELETE ∨
      (Gcp.ActionForStateChange cur des).Action = Gcp.NO_ACTION) := by
  constructor
  · intro cur des
    unfold Aws.ActionForStateChange
    split_ifs <;> simp
  · intro cur des
    unfold Gcp.ActionForStateChange
    split_ifs <;> simp

/-! ## The partition of the actions into chunks -/

theorem wrapInt_of_fits (x : Int) (h0 : -9223372036854775808 ≤ x) (h1 : x ≤ maxInt) :
    wrapInt x = x := by
  unfold wrapInt
  unfold maxInt at h1
  omega

theorem ceil_mul_ge (n c : Nat) (hc : 1 ≤ c) : n ≤ (n + c - 1) / c * c := by
  have h := Nat.div_add_mod (n + c - 1) c
  have h2 := Nat.mod_lt (n + c - 1) (show 0 < c by omega)
  have h3 : c * ((n + c - 1) / c) = (n + c - 1) / c * c := Nat.mul_comm _ _
  omega

theorem ceil_mul_le (n c : Nat) : (n + c - 1) / c * c ≤ n + c - 1 :=
  Nat.div_mul_le_self _ _

theorem lt_ceil_of_mul_lt (n c k : Nat) (hc : 1 ≤ c) (h : k * c < n) : k < (n + c - 1) / c := by
  by_contra hk
  have hk' : (n + c - 1) / c ≤ k := by omega
  have := Nat.mul_le_mul_right c hk'
  have := ceil_mul_ge n c hc
  omega

theorem mul_lt_of_lt_ceil (n c k : Nat) (hc : 1 ≤ c) (h : k < (n + c - 1) / c) : k * c < n := by
  have h1 : (k + 1) * c ≤ (n + c - 1) / c * c := Nat.mul_le_mul_right c (by omega)
  have h2 := ceil_mul_le n c
  have h3 : (k + 1) * c = k * c + c := by ring
  omega

theorem divideLoop_exit {α : Type} (actions : List α) (n c : Int) (fuel : Nat) (i : Int)
    (divided : List (List α)) (h : ¬ i < n) :
    divideLoop actions n c (fuel + 1) i divided = Outcome.returns divided := by
  rw [divideLoop, if_neg h]

theorem divideLoop_step {α : Type} (actions : List α) (n c : Int) (fuel : Nat) (i : Int)
    (divided : List (List α)) (chunk : List α) (h : i < n)
    (hs : sliceOf actions i (if wrapInt (i + c) > n then n else wrapInt (i + c)) = some chunk) :
    divideLoop actions n c (fuel + 1) i divided =
      divideLoop actions n c fuel (wrapInt (i + c)) (divided ++ [chunk]) := by
  rw [divideLoop, if_pos h]
  simp only [hs]

theorem sliceOf_chunk {α : Type} (actions : List α) (c k : Nat)
    (hlt : k * c < actions.length) :
    sliceOf actions ((k * c : Nat) : Int)
      (if (((k + 1) * c : Nat) : Int) > (actions.length : Int) then (actions.length : Int)
        else (((k + 1) * c : Nat) : Int)) = some ((actions.drop (k * c)).take c) := by
  have hk1 : (k + 1) * c = k * c + c := by ring
  unfold sliceOf
  by_cases hbig : (((k + 1) * c : Nat) : Int) > (actions.length : Int)
  · have hbig' : actions.length < (k + 1) * c := by exact_mod_cast hbig
    rw [if_pos hbig, if_pos ⟨by omega, by omega, le_refl _⟩]
    congr 1
    have e1 : (((k * c : Nat) : Int)).toNat = k * c := Int.toNat_ofNat _
    have e2 : ((actions.length : Int) - ((k * c : Nat) : Int)).toNat
        = actions.length - k * c := by omega
    rw [e1, e2, List.take_of_length_le (by rw [List.length_drop]),
      List.take_of_length_le (by rw [List.length_drop]; omega)]
  · have hbig' : (k + 1) * c ≤ actions.length := by
      have := not_lt.mp hbig
      exact_mod_cast this
    rw [if_neg hbig, if_pos ⟨by omega, by omega, by omega⟩]
    congr 1
    have e1 : (((k * c : Nat) : Int)).toNat = k * c := Int.toNat_ofNat _
    have e2 : ((((k + 1) * c : Nat) : Int) - ((k * c : Nat) : Int)).toNat = c := by
      omega
    rw [e1, e2]

theorem divideLoop_run {α : Type} (actions : List α) (c : Nat) (hc : 1 ≤ c)
    (hfit : (((actions.length + c - 1) / c * c : Nat) : Int) ≤ maxInt) :
    ∀ (fuel k : Nat) (divided : List (List α)), k ≤ (actions.length + c - 1) / c →
      (actions.length + c - 1) / c - k < fuel →
      divideLoop actions (actions.length : Int) (c : Int) fuel ((k * c : Nat) : Int) divided =
        Outcome.returns (divided ++
          (List.range' k ((actions.length + c - 1) / c - k)).map
            (fun j => (actions.drop (j * c)).take c)) := by
  intro fuel
  induction fuel with
  | zero => intro k divided _ h; omega
  | succ fuel ih =>
    intro k divided hk hfuel
    by_cases hlt : k * c < actions.length
    · have hkm := lt_ceil_of_mul_lt actions.length c k hc hlt
      have hnext : (k + 1) * c ≤ (actions.length + c - 1) / c * c :=
        Nat.mul_le_mul_right c (by omega)
      have hk1 : (k + 1) * c = k * c + c := by ring
      have hnext' : (((k + 1) * c : Nat) : Int) ≤ maxInt :=
        le_trans (by exact_mod_cast hnext) hfit
      have hw : wrapInt (((k * c : Nat) : Int) + (c : Int)) = (((k + 1) * c : Nat) : Int) := by
        have e : ((k * c : Nat) : Int) + (c : Int) = (((k + 1) * c : Nat) : Int) := by
          rw [hk1]; push_cast; rfl
        rw [e]
        exact wrapInt_of_fits _ (by omega) hnext'
      have hcond : (((k * c : Nat) : Int) < (actions.length : Int)) := by exact_mod_cast hlt
      rw [divideLoop_step actions _ _ fuel _ divided ((actions.drop (k * c)).take c) hcond
        (by rw [hw]; exact sliceOf_chunk actions c k hlt), hw,
        ih (k + 1) _ (by omega) (by omega)]
      have hr : (actions.length + c - 1) / c - k
          = ((actions.length + c - 1) / c - (k + 1)) + 1 := by omega
      rw [hr, List.range'_succ, List.map_cons, List.append_assoc, List.singleton_append]
    · have hcond : ¬ (((k * c : Nat) : Int) < (actions.length : Int)) := by
        intro h; exact hlt (by exact_mod_cast h)
      have hkm : k = (actions.length + c - 1) / c := by
        by_contra hne
        exact hlt (mul_lt_of_lt_ceil actions.length c k hc (by omega))
      rw [divideLoop_exit actions _ _ fuel _ divided hcond, ← hkm, Nat.sub_self,
        List.range'_zero, List.map_nil, List.append_nil]

theorem wrapInt_sub_one (x : Int) : wrapInt (wrapInt x - 1) = wrapInt (x - 1) := by
  unfold wrapInt
  omega

theorem chunkSize_pos (n P : Nat) (hP : 1 ≤ P) (hn : 1 ≤ n) : 1 ≤ (n + P - 1) / P :=
  Nat.div_pos (by omega) (by omega)

theorem ceil_le_parts (n P c : Nat) (hP : 1 ≤ P) (hc : c = (n + P - 1) / P) :
    (n + c - 1) / c ≤ P := by
  by_cases hn : n = 0
  · subst hn
    have : (0 + P - 1) / P = 0 := Nat.div_eq_of_lt (by omega)
    rw [hc, this]
    simp
  have hc1 : 1 ≤ c := hc ▸ chunkSize_pos n P hP (by omega)
  have hcov : n ≤ c * P := by
    have := ceil_mul_ge n P hP
    rw [← hc] at this
    exact this
  have : (n + c - 1) / c < P + 1 := by
    rw [Nat.div_lt_iff_lt_mul (by omega)]
    have e : (P + 1) * c = c * P + c := by ring
    omega
  omega

/-- The chunks `divideActions` returns, in closed form: with `c` the chunk size and `m` the
number of chunks, chunk `j` is made of the `c` elements from position `j * c` on (fewer at the
end of the slice). -/
theorem divideActions_run {α : Type} (actions : List α) (P c m : Nat) (hP : 1 ≤ P)
    (hc : c = (actions.length + P - 1) / P) (hm : m = (actions.length + c - 1) / c)
    (hfit : ((actions.length : Int) + (P : Int) - 1) ≤ maxInt)
    (fuel : Nat) (hfuel : actions.length < fuel) :
    divideActions fuel actions (P : Int) =
      Outcome.returns ((List.range' 0 m).map (fun j => (actions.drop (j * c)).take c)) := by
  have hquot : Int.tdiv ((actions.length : Int) + (P : Int) - 1) (P : Int) = (c : Int) := by
    rw [Int.tdiv_eq_ediv (by omega) (by omega)]
    have : ((actions.length : Int) + (P : Int) - 1) = ((actions.length + P - 1 : Nat) : Int) := by
      omega
    rw [this, hc]
    exact (Int.ofNat_ediv _ _).symm
  have hcle : c ≤ actions.length + P - 1 := hc ▸ Nat.div_le_self _ _
  have hchunk : goDiv (wrapInt (wrapInt ((actions.length : Int) + (P : Int)) - 1)) (P : Int)
      = some (c : Int) := by
    unfold goDiv
    rw [if_neg (by omega), wrapInt_sub_one,
      wrapInt_of_fits _ (by omega) hfit, hquot,
      wrapInt_of_fits _ (by omega) (by omega)]
  unfold divideActions
  simp only [hchunk]
  by_cases hn : actions.length = 0
  · have hnil : actions = [] := List.length_eq_zero.mp hn
    subst hnil
    obtain ⟨f, rfl⟩ : ∃ f, fuel = f + 1 := ⟨fuel - 1, by omega⟩
    rw [divideLoop_exit _ _ _ _ _ _ (by simp)]
    have hc0 : c = 0 := by
      rw [hc]; exact Nat.div_eq_of_lt (by simp; omega)
    have hm0 : m = 0 := by rw [hm, hc0]; simp
    rw [hm0]
    rfl
  · have hc1 : 1 ≤ c := hc ▸ chunkSize_pos actions.length P hP (by omega)
    have hmP : m ≤ P := hm ▸ ceil_le_parts actions.length P c hP hc
    have hcP : c * P ≤ actions.length + P - 1 := hc ▸ ceil_mul_le actions.length P
    have hmc : m * c ≤ actions.length + P - 1 :=
      le_trans (Nat.mul_le_mul_right c hmP) (by rw [Nat.mul_comm]; exact hcP)
    have hfit' : (((actions.length + c - 1) / c * c : Nat) : Int) ≤ maxInt := by
      rw [← hm]
      have : ((m * c : Nat) : Int) ≤ ((actions.length + P - 1 : Nat) : Int) := by
        exact_mod_cast hmc
      omega
    have hmn : m ≤ actions.length := by
      rw [hm]
      apply Nat.div_le_of_le_mul
      have hn1 : 1 ≤ actions.length := by omega
      have hprod : actions.length + c ≤ c * actions.length + 1 := by nlinarith [hc1, hn1]
      omega
    have h := divideLoop_run actions c hc1 hfit' fuel 0 [] (Nat.zero_le _)
      (by rw [← hm]; omega)
    rw [← hm] at h
    simp only [Nat.zero_mul, Nat.cast_zero, List.nil_append, Nat.sub_zero] at h
    exact h

/-- The code's `(a + b - 1) / b` is the ceiling of the quotient `a / b`. -/
theorem ceilDiv_eq (a b : Nat) (hb : 1 ≤ b) :
    (((a + b - 1) / b : Nat) : Int) = ⌈(a : ℚ) / (b : ℚ)⌉ := by
  have hbq : (0 : ℚ) < (b : ℚ) := by exact_mod_cast hb
  obtain ⟨q, hq⟩ : ∃ q, q = (a + b - 1) / b := ⟨_, rfl⟩
  have h1 : (q : ℚ) * (b : ℚ) ≤ (a : ℚ) + (b : ℚ) - 1 := by
    have := ceil_mul_le a b
    rw [← hq] at this
    have h' : ((q * b : Nat) : ℚ) ≤ ((a + b - 1 : Nat) : ℚ) := by exact_mod_cast this
    rw [Nat.cast_sub (by omega)] at h'
    push_cast at h'
    exact h'
  have h2 : (a : ℚ) ≤ (q : ℚ) * (b : ℚ) := by
    have := ceil_mul_ge a b hb
    rw [← hq] at this
    exact_mod_cast this
  rw [← hq]
  symm
  rw [Int.ceil_eq_iff, Int.cast_natCast]
  constructor
  · rw [lt_div_iff₀ hbq]
    linarith
  · rw [div_le_iff₀ hbq]
    exact h2

theorem length_take_drop {α : Type} (l : List α) (i c : Nat) :
    ((l.drop i).take c).length = min c (l.length - i) := by
  rw [List.length_take, List.length_drop]

/-- The number of chunks `divideActions` returns when the chunk size is computed without
overflow. -/
theorem divideActions_count {α : Type} (actions : List α) (parts : Int) (fuel : Nat)
    (hne : actions ≠ []) (hP : 1 ≤ parts)
    (hfit : (actions.length : Int) + parts - 1 ≤ maxInt) (hfuel : actions.length < fuel) :
    ∃ chunks, divideActions fuel actions parts = Outcome.returns chunks ∧
      1 ≤ chunks.length ∧ (chunks.length : Int) ≤ parts ∧
      (chunks.length : Int) =
        ⌈(actions.length : ℚ) / ((⌈(actions.length : ℚ) / (parts : ℚ)⌉ : Int) : ℚ)⌉ := by
  obtain ⟨P, rfl⟩ := Int.eq_ofNat_of_zero_le (show 0 ≤ parts by omega)
  have hP' : 1 ≤ P := by exact_mod_cast hP
  have hn : 1 ≤ actions.length := List.length_pos.mpr hne
  have hc1 := chunkSize_pos actions.length P hP' hn
  refine ⟨_, divideActions_run actions P _ _ hP' rfl rfl hfit fuel hfuel, ?_, ?_, ?_⟩
  · rw [List.length_map, List.length_range']
    exact Nat.div_pos (by omega) (by omega)
  · rw [List.length_map, List.length_range']
    exact_mod_cast ceil_le_parts actions.length P _ hP' rfl
  · rw [List.length_map, List.length_range', ceilDiv_eq _ _ hc1, Int.cast_natCast,
      ← ceilDiv_eq _ _ hP', Int.cast_natCast]

/-- The sizes of the chunks `divideActions` returns when the chunk size is computed without
overflow. -/
theorem divideActions_sizes {α : Type} (actions : List α) (parts : Int) (fuel : Nat)
    (hne : actions ≠ []) (hP : 1 ≤ parts)
    (hfit : (actions.length : Int) + parts - 1 ≤ maxInt) (hfuel : actions.length < fuel) :
    ∃ chunks, divideActions fuel actions parts = Outcome.returns chunks ∧
      0 < chunks.length ∧
      ∀ (j : Nat) (hj : j < chunks.length),
        (j + 1 < chunks.length →
          (chunks[j].length : Int) = ⌈(actions.length : ℚ) / (parts : ℚ)⌉) ∧
        (j + 1 = chunks.length →
          1 ≤ chunks[j].length ∧
          (chunks[j].length : Int) ≤ ⌈(actions.length : ℚ) / (parts : ℚ)⌉) := by
  obtain ⟨P, rfl⟩ := Int.eq_ofNat_of_zero_le (show 0 ≤ parts by omega)
  have hP' : 1 ≤ P := by exact_mod_cast hP
  have hn : 1 ≤ actions.length := List.length_pos.mpr hne
  have hc1 := chunkSize_pos actions.length P hP' hn
  refine ⟨_, divideActions_run actions P _ _ hP' rfl rfl hfit fuel hfuel, ?_, ?_⟩
  · rw [List.length_map, List.length_range']
    exact Nat.div_pos (by omega) (by omega)
  · intro j hj
    have hj' : j < (actions.length + (actions.length + P - 1) / P - 1)
        / ((actions.length + P - 1) / P) := by
      rw [List.length_map, List.length_range'] at hj
      exact hj
    have hlt := mul_lt_of_lt_ceil actions.length _ j hc1 hj'
    rw [Int.cast_natCast, ← ceilDiv_eq _ _ hP']
    simp only [List.getElem_map, List.getElem_range', Nat.zero_add, Nat.one_mul,
      List.length_map, List.length_range', length_take_drop]
    constructor
    · intro hj1
      have := mul_lt_of_lt_ceil actions.length _ (j + 1) hc1 hj1
      have e : (j + 1) * ((actions.length + P - 1) / P)
          = j * ((actions.length + P - 1) / P) + (actions.length + P - 1) / P := by ring
      have : min ((actions.length + P - 1) / P)
          (actions.length - j * ((actions.length + P - 1) / P))
          = (actions.length + P - 1) / P := by omega
      rw [this]
    · intro _
      constructor
      · omega
      · exact_mod_cast Nat.min_le_left _ _


/-- C19, counterexample. Five actions and a concurrency bound of 4: the chunk size is 2 and
`divideActions` returns 3 chunks, not 4. -/
theorem divideActions_five_actions_four_parts :
    fiveActions ≠ [] ∧ (1 : Int) ≤ 4 ∧
    divideActions 6 fiveActions 4 = Outcome.returns
      [[sampleAction, sampleAction], [sampleAction, sampleAction], [sampleAction]] ∧
    ([[sampleAction, sampleAction], [sampleAction, sampleAction], [sampleAction]].length : Int)
      ≠ 4 := by
  decide

/-- C19, amended. `divideActions` and `divideActionsGCP`, on a non-empty slice of `n` actions
and a concurrency bound `parts ≥ 1` such that `n + parts - 1` does not exceed the largest
`int`: given fuel for more than `n` tests of the loop condition, the function returns, and the
result consists of `⌈n / ⌈n / parts⌉⌉` chunks, which is at least 1 and at most `parts`. -/
theorem divideActions_chunk_count :
    (∀ (α : Type) (actions : List α) (parts : Int) (fuel : Nat), actions ≠ [] → 1 ≤ parts →
      (actions.length : Int) + parts - 1 ≤ maxInt → actions.length < fuel →
      ∃ chunks, divideActions fuel actions parts = Outcome.returns chunks ∧
        1 ≤ chunks.length ∧ (chunks.length : Int) ≤ parts ∧
        (chunks.length : Int) =
          ⌈(actions.length : ℚ) / ((⌈(actions.length : ℚ) / (parts : ℚ)⌉ : Int) : ℚ)⌉) ∧
    (∀ (actions : List Gcp.FileAction) (parts : Int) (fuel : Nat), actions ≠ [] → 1 ≤ parts →
      (actions.length : Int) + parts - 1 ≤ maxInt → actions.length < fuel →
      ∃ chunks, divideActionsGCP fuel actions parts = Outcome.returns chunks ∧
        1 ≤ chunks.length ∧ (chunks.length : Int) ≤ parts ∧
        (chunks.length : Int) =
          ⌈(actions.length : ℚ) / ((⌈(actions.length : ℚ) / (parts : ℚ)⌉ : Int) : ℚ)⌉) :=
  ⟨fun _ actions parts fuel hne hP hfit hfuel =>
      divideActions_count actions parts fuel hne hP hfit hfuel,
    fun actions parts fuel hne hP hfit hfuel =>
      divideActions_count actions parts fuel hne hP hfit hfuel⟩

/-- Witness of the amended C19: five actions and a concurrency bound of 4. -/
theorem divideActions_chunk_count_witness :
    fiveActions ≠ [] ∧ (1 : Int) ≤ 4 ∧ (fiveActions.length : Int) + 4 - 1 ≤ maxInt ∧
    fiveActions.length < 6 ∧
    ∃ chunks, divideActions 6 fiveActions 4 = Outcome.returns chunks ∧
      1 ≤ chunks.length ∧ (chunks.length : Int) ≤ 4 ∧
      (chunks.length : Int) =
        ⌈(fiveActions.length : ℚ) / ((⌈(fiveActions.length : ℚ) / ((4 : Int) : ℚ)⌉ : Int) : ℚ)⌉ :=
  ⟨by decide, by decide, by decide, by decide,
    divideActions_chunk_count.1 Aws.FileAction fiveActions 4 6 (by decide) (by decide)
      (by decide) (by decide)⟩

/-- C20, counterexample. Two actions and a concurrency bound equal to the largest `int`:
`nActions + parts - 1` wraps around to `-2^63`, the chunk size is `-1`, and the first slice
expression `actions[0:-1]` panics, so no chunk is returned, whatever the fuel. -/
theorem divideActions_largest_parts_panics :
    twoActions.length = 2 ∧ (1 : Int) ≤ 9223372036854775807 ∧
    goDiv (wrapInt (wrapInt ((twoActions.length : Int) + 9223372036854775807) - 1))
      9223372036854775807 = some (-1) ∧
    ∀ fuel : Nat, divideActions (fuel + 1) twoActions 9223372036854775807 = Outcome.panics :=
  ⟨rfl, by decide, by decide, fun _ => rfl⟩

/-- C20, amended. `divideActions` and `divideActionsGCP`, on a slice of `n ≥ 1` actions and a
concurrency bound `parts ≥ 1` such that `n + parts - 1` does not exceed the largest `int`:
given fuel for more than `n` tests of the loop condition, the function returns at least one
chunk, every chunk except the last has exactly `⌈n / parts⌉` elements, and the last chunk has
between 1 and `⌈n / parts⌉` elements. -/
theorem divideActions_chunk_sizes :
    (∀ (α : Type) (actions : List α) (parts : Int) (fuel : Nat), actions ≠ [] → 1 ≤ parts →
      (actions.length : Int) + parts - 1 ≤ maxInt → actions.length < fuel →
      ∃ chunks, divideActions fuel actions parts = Outcome.returns chunks ∧
        0 < chunks.length ∧
        ∀ (j : Nat) (hj : j < chunks.length),
          (j + 1 < chunks.length →
            (chunks[j].length : Int) = ⌈(actions.length : ℚ) / (parts : ℚ)⌉) ∧
          (j + 1 = chunks.length →
            1 ≤ chunks[j].length ∧
            (chunks[j].length : Int) ≤ ⌈(actions.length : ℚ) / (parts : ℚ)⌉)) ∧
    (∀ (actions : List Gcp.FileAction) (parts : Int) (fuel : Nat), actions ≠ [] → 1 ≤ parts →
      (actions.length : Int) + parts - 1 ≤ maxInt → actions.length < fuel →
      ∃ chunks, divideActionsGCP fuel actions parts = Outcome.returns chunks ∧
        0 < chunks.length ∧
        ∀ (j : Nat) (hj : j < chunks.length),
          (j + 1 < chunks.length →
            (chunks[j].length : Int) = ⌈(actions.length : ℚ) / (parts : ℚ)⌉) ∧
          (j + 1 = chunks.length →
            1 ≤ chunks[j].length ∧
            (chunks[j].length : Int) ≤ ⌈(actions.length : ℚ) / (parts : ℚ)⌉)) :=
  ⟨fun _ actions parts fuel hne hP hfit hfuel =>
      divideActions_sizes actions parts fuel hne hP hfit hfuel,
    fun actions parts fuel hne hP hfit hfuel =>
      divideActions_sizes actions parts fuel hne hP hfit hfuel⟩

set_option maxRecDepth 200000 in
/-- Witness of the amended C20 (scenario S5): a thousand actions and a concurrency bound of
32 give 32 chunks, 31 of 32 actions and a last one of 8. -/
theorem divideActions_chunk_sizes_witness :
    thousandActions ≠ [] ∧ (1 : Int) ≤ 32 ∧ (thousandActions.length : Int) + 32 - 1 ≤ maxInt ∧
    thousandActions.length < 1001 ∧
    divideActions 1001 thousandActions 32 = Outcome.returns
      (List.replicate 31 (List.replicate 32 sampleAction) ++
        [List.replicate 8 sampleAction]) ∧
    ∃ chunks, divideActions 1001 thousandActions 32 = Outcome.returns chunks ∧
      0 < chunks.length ∧
      ∀ (j : Nat) (hj : j < chunks.length),
        (j + 1 < chunks.length →
          (chunks[j].length : Int) = ⌈(thousandActions.length : ℚ) / ((32 : Int) : ℚ)⌉) ∧
        (j + 1 = chunks.length →
          1 ≤ chunks[j].length ∧
          (chunks[j].length : Int) ≤ ⌈(thousandActions.length : ℚ) / ((32 : Int) : ℚ)⌉) :=
  ⟨by decide, by decide, by decide, by decide, by decide,
    divideActions_chunk_sizes.1 Aws.FileAction thousandActions 32 1001 (by decide) (by decide)
      (by decide) (by decide)⟩

/-! ## The requests sent to the providers -/

theorem doCreate_sent {σ : Type} (queryEscape : String → String)
    (client : σ → S3Request → Except String S3Reply × σ) (s : Session σ S3Request)
    (bucketName : String) (action : Aws.FileAction) :
    (doCreate queryEscape client s bucketName action).2.sent = s.sent ++
      [if action.Source.Size < FiveGibibytes then
        S3Request.CopyObject ⟨bucketName, action.Source.Key,
          action.Source.ToSourceURL queryEscape bucketName,
          if !(Time.IsZero action.UnmodifiedPreCondition) then
            some action.UnmodifiedPreCondition else none⟩
      else S3Request.Copy ⟨bucketName, action.Source.Key,
          action.Source.ToSourceURL queryEscape bucketName⟩] := by
  unfold doCreate
  by_cases h : action.Source.Size < FiveGibibytes
  · simp only [h, if_true]
    split <;>
    · rename_i heq
      have h2 := congrArg Prod.snd heq
      simp only at h2
      rw [← h2]
      rfl
  · simp only [h, if_false]
    split <;>
    · rename_i heq
      have h2 := congrArg Prod.snd heq
      simp only at h2
      rw [← h2]
      rfl

theorem doDelete_sent {σ : Type} (client : σ → S3Request → Except String S3Reply × σ)
    (s : Session σ S3Request) (bucketName : String) (action : Aws.FileAction) :
    (doDelete client s bucketName action).2.sent = s.sent ++
      [S3Request.DeleteObject ⟨bucketName, action.Source.Key, none⟩] := by
  unfold doDelete
  split <;>
  · rename_i heq
    have h2 := congrArg Prod.snd heq
    simp only at h2
    rw [← h2]
    rfl

/-- C25. S3 `doCreate`: the one request it sends is the single-part `CopyObject` exactly when
`action.Source.Size < 5368709120`, and the multi-part `Copy` exactly when
`action.Source.Size ≥ 5368709120`; this bound is `FiveGibibytes`, `5 * 2^30`. -/
theorem doCreate_copy_strategy {σ : Type} (queryEscape : String → String)
    (client : σ → S3Request → Except String S3Reply × σ) (s : Session σ S3Request)
    (bucketName : String) (action : Aws.FileAction) :
    FiveGibibytes = 5368709120 ∧ FiveGibibytes = 5 * 2 ^ 30 ∧
    ∃ request, (doCreate queryEscape client s bucketName action).2.sent = s.sent ++ [request] ∧
      (request.isCopyObject = true ↔ action.Source.Size < 5368709120) ∧
      (request.isCopy = true ↔ 5368709120 ≤ action.Source.Size) := by
  refine ⟨by decide, by decide, _, doCreate_sent queryEscape client s bucketName action, ?_, ?_⟩
  · by_cases h : action.Source.Size < 5368709120
    · simp [FiveGibibytes, h, S3Request.isCopyObject]
    · simp [FiveGibibytes, h, S3Request.isCopyObject]
  · by_cases h : action.Source.Size < 5368709120
    · simp [FiveGibibytes, h, S3Request.isCopy]
    · simp [FiveGibibytes, h, S3Request.isCopy, not_lt.mp h]

/-- C26. S3 `doCreate`: the request it sends carries an unmodified-since condition exactly
when `Source.Size` is below 5 GiB and `UnmodifiedPreCondition` is not the zero time, and the
condition is then `UnmodifiedPreCondition`; at 5 GiB and above the request is the multi-part
`Copy`, which carries no condition whatever the action holds. -/
theorem doCreate_precondition {σ : Type} (queryEscape : String → String)
    (client : σ → S3Request → Except String S3Reply × σ) (s : Session σ S3Request)
    (bucketName : String) (action : Aws.FileAction) :
    ∃ request, (doCreate queryEscape client s bucketName action).2.sent = s.sent ++ [request] ∧
      (request.unmodifiedSince.isSome = true ↔
        (action.Source.Size < FiveGibibytes ∧
          Time.IsZero action.UnmodifiedPreCondition = false)) ∧
      (action.Source.Size < FiveGibibytes →
        Time.IsZero action.UnmodifiedPreCondition = false →
        request.unmodifiedSince = some action.UnmodifiedPreCondition) ∧
      (FiveGibibytes ≤ action.Source.Size →
        request.isCopy = true ∧ request.unmodifiedSince = none) := by
  refine ⟨_, doCreate_sent queryEscape client s bucketName action, ?_, ?_, ?_⟩
  · by_cases h : action.Source.Size < FiveGibibytes
    · cases hz : Time.IsZero action.UnmodifiedPreCondition <;>
        simp [h, hz, S3Request.unmodifiedSince]
    · simp [h, S3Request.unmodifiedSince]
  · intro h hz
    simp [h, hz, S3Request.unmodifiedSince]
  · intro h
    simp [not_lt.mpr h, S3Request.unmodifiedSince, S3Request.isCopy]

/-- Witness of C26: a 5-byte source under the pre-condition 30 is copied by `CopyObject` with
the condition 30; a 6 GiB source under the same pre-condition is copied by the multi-part
`Copy`, without a condition. -/
theorem doCreate_precondition_witness :
    smallCreate.Source.Size < FiveGibibytes ∧
    Time.IsZero smallCreate.UnmodifiedPreCondition = false ∧
    FiveGibibytes ≤ largeCreate.Source.Size ∧
    (doCreate id refusingDeletes ⟨0, []⟩ "b" smallCreate).2.sent
      = [S3Request.CopyObject ⟨"b", "a.txt", "b/a.txt?versionId=v1", some 30⟩] ∧
    (doCreate id refusingDeletes ⟨0, []⟩ "b" largeCreate).2.sent
      = [S3Request.Copy ⟨"b", "a.txt", "b/a.txt?versionId=v1"⟩] ∧
    ∃ request, (doCreate id refusingDeletes ⟨0, []⟩ "b" largeCreate).2.sent
        = ([] : List S3Request) ++ [request] ∧
      (request.unmodifiedSince.isSome = true ↔
        (largeCreate.Source.Size < FiveGibibytes ∧
          Time.IsZero largeCreate.UnmodifiedPreCondition = false)) ∧
      (largeCreate.Source.Size < FiveGibibytes →
        Time.IsZero largeCreate.UnmodifiedPreCondition = false →
        request.unmodifiedSince = some largeCreate.UnmodifiedPreCondition) ∧
      (FiveGibibytes ≤ largeCreate.Source.Size →
        request.isCopy = true ∧ request.unmodifiedSince = none) :=
  ⟨by decide, by decide, by decide, by decide, by decide,
    doCreate_precondition id refusingDeletes ⟨0, []⟩ "b" largeCreate⟩

/-- C27, the code on every input. S3 `doDelete` sends `DeleteObject` with the bucket and the
key only: the request is the same whatever `UnmodifiedPreCondition` the action holds, and it
carries no unmodified-since condition; for the action of scenario S1, with pre-condition 30,
the request is the one sent for the same action without a pre-condition. -/
theorem doDelete_ignores_precondition :
    (∀ (σ : Type) (client : σ → S3Request → Except String S3Reply × σ)
      (s : Session σ S3Request) (bucketName : String) (source : Aws.FileOperand)
      (since since' : Time),
      (doDelete client s bucketName ⟨Aws.DELETE, source, since⟩).2.sent
        = (doDelete client s bucketName ⟨Aws.DELETE, source, since'⟩).2.sent ∧
      ∃ request, (doDelete client s bucketName ⟨Aws.DELETE, source, since⟩).2.sent
          = s.sent ++ [request] ∧ request.unmodifiedSince = none) ∧
    sampleAction.UnmodifiedPreCondition = 30 ∧
    (doDelete refusingDeletes ⟨0, []⟩ "b" sampleAction).2.sent
      = [S3Request.DeleteObject ⟨"b", "a.txt", none⟩] := by
  refine ⟨?_, rfl, by decide⟩
  intro σ client s bucketName source since since'
  rw [doDelete_sent, doDelete_sent]
  exact ⟨rfl, _, rfl, rfl⟩

theorem doCreateGCP_sent {σ : Type}
    (client : σ → GcsRequest → Except String Gcp.Generation × σ)
    (s : Session σ GcsRequest) (action : Gcp.FileAction) :
    (doCreateGCP client s action).2.sent = s.sent ++
      [GcsRequest.Copy
        (if action.GenerationPreCondition ≠ 0 then
          (BucketObject action.Source.Name).If ⟨action.GenerationPreCondition⟩
          else BucketObject action.Source.Name)
        ((BucketObject action.Source.Name).Generation action.Source.Generation)] := by
  unfold doCreateGCP
  simp [Session.call]

theorem doDeleteGCP_sent {σ : Type}
    (client : σ → GcsRequest → Except String Gcp.Generation × σ)
    (s : Session σ GcsRequest) (action : Gcp.FileAction) :
    (doDeleteGCP client s action).2.sent = s.sent ++
      [GcsRequest.Delete
        ((BucketObject action.Source.Name).If ⟨action.GenerationPreCondition⟩)] := by
  unfold doDeleteGCP
  split <;>
  · rename_i heq
    have h2 := congrArg Prod.snd heq
    simp only at h2
    rw [← h2]
    rfl

/-- C28. No stored version is targeted for removal. S3 `doDelete` sends one `DeleteObject`
that names the bucket and the action's key and no version ID, whatever `Source.Version` is;
GCS `doDeleteGCP` sends one deletion of the handle of the action's name with no generation
selected; S3 `doCreate` sends one copy whose destination is the bucket and the action's own
key; GCS `doCreateGCP` sends one copy whose destination is the handle of the action's own name
with no generation selected. -/
theorem requests_target_the_live_object :
    (∀ (σ : Type) (client : σ → S3Request → Except String S3Reply × σ)
      (s : Session σ S3Request) (bucketName : String) (action : Aws.FileAction),
      (doDelete client s bucketName action).2.sent
        = s.sent ++ [S3Request.DeleteObject ⟨bucketName, action.Source.Key, none⟩]) ∧
    (∀ (σ : Type) (client : σ → GcsRequest → Except String Gcp.Generation × σ)
      (s : Session σ GcsRequest) (action : Gcp.FileAction),
      ∃ obj, (doDeleteGCP client s action).2.sent = s.sent ++ [GcsRequest.Delete obj] ∧
        obj.Name = action.Source.Name ∧ obj.gen = none) ∧
    (∀ (σ : Type) (queryEscape : String → String)
      (client : σ → S3Request → Except String S3Reply × σ)
      (s : Session σ S3Request) (bucketName : String) (action : Aws.FileAction),
      (∃ input, (doCreate queryEscape client s bucketName action).2.sent
          = s.sent ++ [S3Request.CopyObject input] ∧
        input.Bucket = bucketName ∧ input.Key = action.Source.Key) ∨
      (∃ input, (doCreate queryEscape client s bucketName action).2.sent
          = s.sent ++ [S3Request.Copy input] ∧
        input.Bucket = bucketName ∧ input.Key = action.Source.Key)) ∧
    (∀ (σ : Type) (client : σ → GcsRequest → Except String Gcp.Generation × σ)
      (s : Session σ GcsRequest) (action : Gcp.FileAction),
      ∃ dst src, (doCreateGCP client s action).2.sent = s.sent ++ [GcsRequest.Copy dst src] ∧
        dst.Name = action.Source.Name ∧ dst.gen = none ∧
        src.Name = action.Source.Name ∧ src.gen = some action.Source.Generation) := by
  refine ⟨?_, ?_, ?_, ?_⟩
  · intro σ client s bucketName action
    exact doDelete_sent client s bucketName action
  · intro σ client s action
    exact ⟨_, doDeleteGCP_sent client s action, rfl, rfl⟩
  · intro σ queryEscape client s bucketName action
    by_cases h : action.Source.Size < FiveGibibytes
    · left
      refine ⟨⟨bucketName, action.Source.Key,
        action.Source.ToSourceURL queryEscape bucketName,
        if !(Time.IsZero action.UnmodifiedPreCondition) then
          some action.UnmodifiedPreCondition else none⟩, ?_, rfl, rfl⟩
      rw [doCreate_sent, if_pos h]
    · right
      refine ⟨⟨bucketName, action.Source.Key,
        action.Source.ToSourceURL queryEscape bucketName⟩, ?_, rfl, rfl⟩
      rw [doCreate_sent, if_neg h]
  · intro σ client s action
    refine ⟨_, _, doCreateGCP_sent client s action, ?_, ?_, rfl, rfl⟩
    · split <;> rfl
    · split <;> rfl

/-! ## The number of parts and the chunks as a partition -/

theorem divideActions_one_part {α : Type} (actions : List α) (fuel : Nat)
    (hn : 1 ≤ actions.length) (hfit : (actions.length : Int) ≤ maxInt)
    (hfuel : actions.length < fuel) :
    divideActions fuel actions 1 = Outcome.returns [actions] := by
  have hc : actions.length = (actions.length + 1 - 1) / 1 := by simp
  have hm : 1 = (actions.length + actions.length - 1) / actions.length :=
    (Nat.div_eq_of_lt_le (by omega) (by omega)).symm
  have h := divideActions_run actions 1 actions.length 1 (le_refl 1) hc hm
    (by push_cast; omega) fuel hfuel
  simp only [Nat.cast_one] at h
  rw [h]
  simp

/-- C22. The number of parts `doRestoreAWS` and `doRestoreGCP` hand to the executor is 1 when
the number of actions is at most 4, whatever the configured max-concurrency, and the
configured max-concurrency when there are more than 4 actions; so 1 to 4 actions form a single
chunk that holds all of them (given fuel for more tests of the loop condition than there are
actions). -/
theorem doRestore_parts_and_single_chunk :
    (∀ nActions maxConcurrency : Int, nActions ≤ 4 →
      doRestoreParts nActions maxConcurrency = 1) ∧
    (∀ nActions maxConcurrency : Int, 4 < nActions →
      doRestoreParts nActions maxConcurrency = maxConcurrency) ∧
    (∀ (α : Type) (actions : List α) (maxConcurrency : Int) (fuel : Nat),
      1 ≤ actions.length → actions.length ≤ 4 → actions.length < fuel →
      divideActions fuel actions (doRestoreParts actions.length maxConcurrency)
        = Outcome.returns [actions]) ∧
    (∀ (actions : List Gcp.FileAction) (maxConcurrency : Int) (fuel : Nat),
      1 ≤ actions.length → actions.length ≤ 4 → actions.length < fuel →
      divideActionsGCP fuel actions (doRestoreParts actions.length maxConcurrency)
        = Outcome.returns [actions]) := by
  have hparts : ∀ nActions maxConcurrency : Int, nActions ≤ 4 →
      doRestoreParts nActions maxConcurrency = 1 := by
    intro n mc h
    unfold doRestoreParts
    rw [if_neg (by omega)]
  refine ⟨hparts, ?_, ?_, ?_⟩
  · intro n mc h
    unfold doRestoreParts
    rw [if_pos (by omega)]
  · intro α actions mc fuel h1 h4 hfuel
    rw [hparts _ mc (by exact_mod_cast h4)]
    exact divideActions_one_part actions fuel h1 (by unfold maxInt; omega) hfuel
  · intro actions mc fuel h1 h4 hfuel
    rw [hparts _ mc (by exact_mod_cast h4)]
    exact divideActions_one_part actions fuel h1 (by unfold maxInt; omega) hfuel

/-- Witness of C22 (scenario S5): with 4 actions and the default max-concurrency 32 the number
of parts is 1 and the actions form one chunk. -/
theorem doRestore_parts_and_single_chunk_witness :
    ((fourActions.length : Int) ≤ 4) ∧ doRestoreParts fourActions.length 32 = 1 ∧
    1 ≤ fourActions.length ∧ fourActions.length ≤ 4 ∧ fourActions.length < 5 ∧
    divideActions 5 fourActions (doRestoreParts fourActions.length 32)
      = Outcome.returns [fourActions] :=
  ⟨by decide, doRestore_parts_and_single_chunk.1 fourActions.length 32 (by decide),
    by decide, by decide, by decide,
    doRestore_parts_and_single_chunk.2.2.1 Aws.FileAction fourActions 32 5
      (by decide) (by decide) (by decide)⟩

theorem flatten_chunks {α : Type} (l : List α) (c : Nat) :
    ∀ m : Nat, ((List.range' 0 m).map (fun j => (l.drop (j * c)).take c)).flatten
      = l.take (m * c) := by
  intro m
  induction m with
  | zero => simp
  | succ m ih =>
    rw [List.range'_1_concat, List.map_append, List.flatten_append, ih, Nat.zero_add,
      Nat.succ_mul, List.take_add]
    simp

/-- The chunks `divideActions` returns, concatenated, are the slice it was given. -/
theorem divideActions_flatten {α : Type} (actions : List α) (parts : Int) (fuel : Nat)
    (hP : 1 ≤ parts) (hfit : (actions.length : Int) + parts - 1 ≤ maxInt)
    (hfuel : actions.length < fuel) :
    ∃ chunks, divideActions fuel actions parts = Outcome.returns chunks ∧
      chunks.flatten = actions := by
  obtain ⟨P, rfl⟩ := Int.eq_ofNat_of_zero_le (show 0 ≤ parts by omega)
  have hP' : 1 ≤ P := by exact_mod_cast hP
  refine ⟨_, divideActions_run actions P _ _ hP' rfl rfl hfit fuel hfuel, ?_⟩
  rw [flatten_chunks]
  apply List.take_of_length_le
  by_cases hn : actions.length = 0
  · omega
  · exact ceil_mul_ge actions.length _ (chunkSize_pos actions.length P hP' (by omega))

/-- C21, counterexample. Five actions and a concurrency bound equal to the largest `int`:
`nActions + parts - 1` wraps around, the chunk size is 0, the loop variable never moves, and
the loop is never left, whatever the fuel: no list of chunks is returned. -/
theorem divideActions_largest_parts_never_returns :
    fiveActions.length = 5 ∧ (1 : Int) ≤ 9223372036854775807 ∧
    goDiv (wrapInt (wrapInt ((fiveActions.length : Int) + 9223372036854775807) - 1))
      9223372036854775807 = some 0 ∧
    ∀ fuel : Nat, divideActions fuel fiveActions 9223372036854775807 = Outcome.outOfFuel := by
  refine ⟨rfl, by decide, by decide, ?_⟩
  have h : ∀ (fuel : Nat) (divided : List (List Aws.FileAction)),
      divideLoop fiveActions 5 0 fuel 0 divided = Outcome.outOfFuel := by
    intro fuel
    induction fuel with
    | zero => intro divided; rfl
    | succ fuel ih => intro divided; exact ih _
  intro fuel
  exact h fuel []

/-- C21, amended. `divideActions` and `divideActionsGCP`, on a slice of `n` actions and a
concurrency bound `parts ≥ 1` such that `n + parts - 1` does not exceed the largest `int`:
given fuel for more than `n` tests of the loop condition, the function returns, and the
returned chunks concatenated in order are exactly the slice it was given. -/
theorem divideActions_chunks_partition :
    (∀ (α : Type) (actions : List α) (parts : Int) (fuel : Nat), 1 ≤ parts →
      (actions.length : Int) + parts - 1 ≤ maxInt → actions.length < fuel →
      ∃ chunks, divideActions fuel actions parts = Outcome.returns chunks ∧
        chunks.flatten = actions) ∧
    (∀ (actions : List Gcp.FileAction) (parts : Int) (fuel : Nat), 1 ≤ parts →
      (actions.length : Int) + parts - 1 ≤ maxInt → actions.length < fuel →
      ∃ chunks, divideActionsGCP fuel actions parts = Outcome.returns chunks ∧
        chunks.flatten = actions) :=
  ⟨fun _ actions parts fuel hP hfit hfuel => divideActions_flatten actions parts fuel hP hfit hfuel,
    fun actions parts fuel hP hfit hfuel => divideActions_flatten actions parts fuel hP hfit hfuel⟩

/-- Witness of the amended C21: five actions and a concurrency bound of 4. -/
theorem divideActions_chunks_partition_witness :
    (1 : Int) ≤ 4 ∧ (fiveActions.length : Int) + 4 - 1 ≤ maxInt ∧ fiveActions.length < 6 ∧
    ∃ chunks, divideActions 6 fiveActions 4 = Outcome.returns chunks ∧
      chunks.flatten = fiveActions :=
  ⟨by decide, by decide, by decide,
    divideActions_chunks_partition.1 Aws.FileAction fiveActions 4 6 (by decide) (by decide)
      (by decide)⟩

/-- The chunks `divideActions` returns: none when the slice is empty, at most `parts`, none of
them empty. -/
theorem divideActions_bounded {α : Type} (actions : List α) (parts : Int) (fuel : Nat)
    (hP : 1 ≤ parts) (hfit : (actions.length : Int) + parts - 1 ≤ maxInt)
    (hfuel : actions.length < fuel) :
    ∃ chunks, divideActions fuel actions parts = Outcome.returns chunks ∧
      (actions = [] → chunks = []) ∧ (chunks.length : Int) ≤ parts ∧
      ∀ chunk ∈ chunks, chunk ≠ [] := by
  obtain ⟨P, rfl⟩ := Int.eq_ofNat_of_zero_le (show 0 ≤ parts by omega)
  have hP' : 1 ≤ P := by exact_mod_cast hP
  refine ⟨_, divideActions_run actions P _ _ hP' rfl rfl hfit fuel hfuel, ?_, ?_, ?_⟩
  · intro hnil
    subst hnil
    have h0 : (P - 1) / P = 0 := Nat.div_eq_of_lt (by omega)
    simp [h0]
  · rw [List.length_map, List.length_range']
    exact_mod_cast ceil_le_parts actions.length P _ hP' rfl
  · intro chunk hchunk
    rw [List.mem_map] at hchunk
    obtain ⟨j, hj, rfl⟩ := hchunk
    rw [List.mem_range'_1] at hj
    have hn : actions.length ≠ 0 := by
      intro h0
      have hc0 : (actions.length + P - 1) / P = 0 := by
        rw [h0]; exact Nat.div_eq_of_lt (by omega)
      rw [hc0] at hj
      simp at hj
    have hc1 := chunkSize_pos actions.length P hP' (by omega)
    have hlt := mul_lt_of_lt_ceil actions.length _ j hc1 (by omega)
    intro hnil
    have hlen := congrArg List.length hnil
    rw [length_take_drop] at hlen
    simp only [List.length_nil] at hlen
    omega

/-- C30, counterexample. Three actions and a concurrency bound equal to the largest `int`:
`nActions + parts - 1` wraps around to `-2^63 + 1`, the chunk size is `-1`, and the first
slice expression `actions[0:-1]` is out of range: the function panics, whatever the fuel. -/
theorem divideActions_three_actions_slice_out_of_range :
    threeActions.length = 3 ∧ (1 : Int) ≤ 9223372036854775807 ∧
    goDiv (wrapInt (wrapInt ((threeActions.length : Int) + 9223372036854775807) - 1))
      9223372036854775807 = some (-1) ∧
    sliceOf threeActions 0 (-1) = none ∧
    ∀ fuel : Nat, divideActions (fuel + 1) threeActions 9223372036854775807
      = Outcome.panics :=
  ⟨rfl, by decide, by decide, by decide, fun _ => rfl⟩

/-- C30, amended. `divideActions` and `divideActionsGCP`, on a slice of `n ≥ 0` actions and
`parts ≥ 1` such that `n + parts - 1` does not exceed the largest `int`: given fuel for more
than `n` tests of the loop condition, the function returns (no division by zero, no
out-of-range slice, the loop is left); it returns no chunk when `n = 0`, and in every case at
most `parts` chunks, none of them empty. -/
theorem divideActions_terminates_within_bound :
    (∀ (α : Type) (actions : List α) (parts : Int) (fuel : Nat), 1 ≤ parts →
      (actions.length : Int) + parts - 1 ≤ maxInt → actions.length < fuel →
      ∃ chunks, divideActions fuel actions parts = Outcome.returns chunks ∧
        (actions = [] → chunks = []) ∧ (chunks.length : Int) ≤ parts ∧
        ∀ chunk ∈ chunks, chunk ≠ []) ∧
    (∀ (actions : List Gcp.FileAction) (parts : Int) (fuel : Nat), 1 ≤ parts →
      (actions.length : Int) + parts - 1 ≤ maxInt → actions.length < fuel →
      ∃ chunks, divideActionsGCP fuel actions parts = Outcome.returns chunks ∧
        (actions = [] → chunks = []) ∧ (chunks.length : Int) ≤ parts ∧
        ∀ chunk ∈ chunks, chunk ≠ []) :=
  ⟨fun _ actions parts fuel hP hfit hfuel => divideActions_bounded actions parts fuel hP hfit hfuel,
    fun actions parts fuel hP hfit hfuel => divideActions_bounded actions parts fuel hP hfit hfuel⟩

/-- Witness of the amended C30: three actions and a concurrency bound of 2 give two chunks,
of two actions and of one, and no action at all gives no chunk. -/
theorem divideActions_terminates_within_bound_witness :
    (1 : Int) ≤ 2 ∧ (threeActions.length : Int) + 2 - 1 ≤ maxInt ∧ threeActions.length < 4 ∧
    threeActions ≠ [] ∧
    divideActions 4 threeActions 2
      = Outcome.returns [[sampleAction, sampleAction], [sampleAction]] ∧
    divideActions 1 ([] : List Aws.FileAction) 2 = Outcome.returns [] ∧
    ∃ chunks, divideActions 4 threeActions 2 = Outcome.returns chunks ∧
      (threeActions = [] → chunks = []) ∧ (chunks.length : Int) ≤ 2 ∧
      ∀ chunk ∈ chunks, chunk ≠ [] :=
  ⟨by decide, by decide, by decide, by decide, by decide, by decide,
    divideActions_terminates_within_bound.1 Aws.FileAction threeActions 2 4 (by decide)
      (by decide) (by decide)⟩

/-! ## What a CREATE copies from -/

theorem Aws.create_source_version (c d : Aws.PathState)
    (h : (Aws.ActionForStateChange c d).Action = Aws.CREATE) :
    (Aws.ActionForStateChange c d).Source.Version = d.Version.ID := by
  unfold Aws.ActionForStateChange at h ⊢
  split_ifs at h ⊢ <;> first | rfl | (simp at h)

/-- C29. S3, for a non-empty slice of versions (in any order) and an instant `t`: if the
action derived by `StateDiffAtTime` followed by `ActionForStateChange` is `CREATE`, then its
`Source.Version` is the ID of a version of the slice that is not a delete marker and whose
`LastModified` is strictly before `t`. -/
theorem aws_create_copies_live_version_before
    (sortSlice : List Aws.Version → List Aws.Version) (hs : SortsBy Aws.ascOrder sortSlice)
    (vs : List Aws.Version) (t : Time) (hne : vs ≠ [])
    (hc : (Aws.ActionForStateChange (Aws.StateDiffAtTime sortSlice vs t).2
      (Aws.StateDiffAtTime sortSlice vs t).1).Action = Aws.CREATE) :
    ∃ v ∈ vs, v.ID = (Aws.ActionForStateChange (Aws.StateDiffAtTime sortSlice vs t).2
        (Aws.StateDiffAtTime sortSlice vs t).1).Source.Version ∧
      v.IsDeleteMarker = false ∧ v.LastModified < t := by
  have hdes := Aws.action_create_imp _ _ hc (Aws.desired_status_cases sortSlice hs vs t hne)
  rw [Aws.create_source_version _ _ hc]
  rcases Aws.desired_status_spec sortSlice hs vs t hne with ⟨_, hst⟩ | ⟨v, hv, heq⟩
  · rw [hst] at hdes
    exact absurd hdes (by decide)
  · rw [heq] at hdes ⊢
    rw [Aws.stateOfVersion_status] at hdes
    refine ⟨v, hv.1, by rw [Aws.stateOfVersion_version], ?_, hv.2.1⟩
    cases hm : v.IsDeleteMarker with
    | false => rfl
    | true =>
      rw [hm] at hdes
      exact absurd hdes (by decide)

/-- Witness of C29 (scenario S2): at `T = 15` the history of `a.txt` gives `CREATE` from `v1`,
a live version modified at 10. -/
theorem aws_create_copies_live_version_before_witness :
    SortsBy Aws.ascOrder (insertionSlice Aws.ascOrder) ∧ Aws.historyOfA ≠ [] ∧
    (Aws.ActionForStateChange
      (Aws.StateDiffAtTime (insertionSlice Aws.ascOrder) Aws.historyOfA 15).2
      (Aws.StateDiffAtTime (insertionSlice Aws.ascOrder) Aws.historyOfA 15).1).Action
        = Aws.CREATE ∧
    (Aws.ActionForStateChange
      (Aws.StateDiffAtTime (insertionSlice Aws.ascOrder) Aws.historyOfA 15).2
      (Aws.StateDiffAtTime (insertionSlice Aws.ascOrder) Aws.historyOfA 15).1).Source.Version
        = "v1" ∧
    ∃ v ∈ Aws.historyOfA, v.ID = (Aws.ActionForStateChange
        (Aws.StateDiffAtTime (insertionSlice Aws.ascOrder) Aws.historyOfA 15).2
        (Aws.StateDiffAtTime (insertionSlice Aws.ascOrder) Aws.historyOfA 15).1).Source.Version ∧
      v.IsDeleteMarker = false ∧ v.LastModified < 15 :=
  ⟨Aws.ascOrder_sortsBy, by decide, by decide, by decide,
    aws_create_copies_live_version_before (insertionSlice Aws.ascOrder) Aws.ascOrder_sortsBy
      Aws.historyOfA 15 (by decide) (by decide)⟩

/-! ## The decision phase -/

theorem doRestoreAWSDecisions_spec (sortSlice : List Aws.Version → List Aws.Version)
    (timestamp : Time) (allGens : List (List Aws.Version)) :
    ∀ (actions : List Aws.FileAction) (noAction : Nat),
      (∀ a ∈ actions, a.Action ≠ Aws.NO_ACTION) →
      noAction + allGens.length < 18446744073709551616 →
      (∀ a ∈ (doRestoreAWSDecisions sortSlice timestamp allGens (actions, noAction)).1,
        a.Action ≠ Aws.NO_ACTION) ∧
      (doRestoreAWSDecisions sortSlice timestamp allGens (actions, noAction)).1.length +
        (doRestoreAWSDecisions sortSlice timestamp allGens (actions, noAction)).2
        = actions.length + noAction + allGens.length := by
  induction allGens with
  | nil =>
    intro actions noAction hall _
    exact ⟨hall, rfl⟩
  | cons fileGens rest ih =>
    intro actions noAction hall hfit
    rw [List.length_cons] at hfit
    unfold doRestoreAWSDecisions
    simp only []
    split_ifs with hact
    · obtain ⟨h1, h2⟩ := ih (actions ++ [_]) noAction (by
        intro a ha
        rcases List.mem_append.mp ha with h | h
        · exact hall a h
        · rw [List.mem_singleton.mp h]; exact hact) (by omega)
      refine ⟨h1, ?_⟩
      rw [h2, List.length_append, List.length_cons, List.length_nil, List.length_cons]
      omega
    · have hmod : (noAction + 1) % 18446744073709551616 = noAction + 1 :=
        Nat.mod_eq_of_lt (by omega)
      rw [hmod]
      obtain ⟨h1, h2⟩ := ih actions (noAction + 1) hall (by omega)
      refine ⟨h1, ?_⟩
      rw [h2, List.length_cons]
      omega

theorem doRestoreGCPDecisions_spec (sortSlice : List Gcp.Generation → List Gcp.Generation)
    (timestamp : Time) (allGens : List (List Gcp.Generation)) :
    ∀ (actions : List Gcp.FileAction) (noAction : Int),
      (∀ a ∈ actions, a.Action ≠ Gcp.NO_ACTION) →
      0 ≤ noAction → noAction + (allGens.length : Int) ≤ maxInt →
      (∀ a ∈ (doRestoreGCPDecisions sortSlice timestamp allGens (actions, noAction)).1,
        a.Action ≠ Gcp.NO_ACTION) ∧
      ((doRestoreGCPDecisions sortSlice timestamp allGens (actions, noAction)).1.length : Int) +
        (doRestoreGCPDecisions sortSlice timestamp allGens (actions, noAction)).2
        = (actions.length : Int) + noAction + (allGens.length : Int) := by
  induction allGens with
  | nil =>
    intro actions noAction hall _ _
    refine ⟨hall, ?_⟩
    simp [doRestoreGCPDecisions]
  | cons fileGens rest ih =>
    intro actions noAction hall h0 hfit
    rw [List.length_cons] at hfit
    push_cast at hfit
    unfold doRestoreGCPDecisions
    simp only []
    split_ifs with hact
    · obtain ⟨h1, h2⟩ := ih (actions ++ [_]) noAction (by
        intro a ha
        rcases List.mem_append.mp ha with h | h
        · exact hall a h
        · rw [List.mem_singleton.mp h]; exact hact) h0 (by omega)
      refine ⟨h1, ?_⟩
      rw [h2, List.length_append, List.length_cons, List.length_nil, List.length_cons]
      push_cast
      omega
    · have hw : wrapInt (noAction + 1) = noAction + 1 :=
        wrapInt_of_fits _ (by omega) (by omega)
      rw [hw]
      obtain ⟨h1, h2⟩ := ih actions (noAction + 1) hall (by omega) (by omega)
      refine ⟨h1, ?_⟩
      rw [h2, List.length_cons]
      push_cast
      omega

/-- C24. The decision phase of `doRestoreAWS` and `doRestoreGCP`, run on the values of a map (a
Go map has an `int` number of keys) in any order and for any instant and sorting routine, from
no action and a zero counter: the actions handed to the executor hold no `NO_ACTION` action,
and their number plus the `noAction` counter is the number of keys. -/
theorem decision_phase_filters_no_action :
    (∀ (sortSlice : List Aws.Version → List Aws.Version) (timestamp : Time)
      (allGens : List (List Aws.Version)), (allGens.length : Int) ≤ maxInt →
      (∀ a ∈ (doRestoreAWSDecisions sortSlice timestamp allGens ([], 0)).1,
        a.Action ≠ Aws.NO_ACTION) ∧
      (doRestoreAWSDecisions sortSlice timestamp allGens ([], 0)).1.length +
        (doRestoreAWSDecisions sortSlice timestamp allGens ([], 0)).2 = allGens.length) ∧
    (∀ (sortSlice : List Gcp.Generation → List Gcp.Generation) (timestamp : Time)
      (allGens : List (List Gcp.Generation)), (allGens.length : Int) ≤ maxInt →
      (∀ a ∈ (doRestoreGCPDecisions sortSlice timestamp allGens ([], 0)).1,
        a.Action ≠ Gcp.NO_ACTION) ∧
      ((doRestoreGCPDecisions sortSlice timestamp allGens ([], 0)).1.length : Int) +
        (doRestoreGCPDecisions sortSlice timestamp allGens ([], 0)).2
        = (allGens.length : Int)) := by
  constructor
  · intro sortSlice timestamp allGens hfit
    obtain ⟨h1, h2⟩ := doRestoreAWSDecisions_spec sortSlice timestamp allGens [] 0
      (by intro a ha; exact absurd ha (List.not_mem_nil a))
      (by unfold maxInt at hfit; omega)
    refine ⟨h1, ?_⟩
    rw [h2]
    simp
  · intro sortSlice timestamp allGens hfit
    obtain ⟨h1, h2⟩ := doRestoreGCPDecisions_spec sortSlice timestamp allGens [] 0
      (by intro a ha; exact absurd ha (List.not_mem_nil a)) (le_refl 0) (by omega)
    refine ⟨h1, ?_⟩
    rw [h2]
    simp

/-- Witness of C24: two keys at `T = 25`; `a.txt` needs a `DELETE` (scenario S1), the other
key needs nothing. -/
theorem decision_phase_filters_no_action_witness :
    (twoHistories.length : Int) ≤ maxInt ∧
    doRestoreAWSDecisions (insertionSlice Aws.ascOrder) 25 twoHistories ([], 0)
      = ([⟨Aws.DELETE, ⟨"a.txt", "v3", 7⟩, 30⟩], 1) ∧
    (∀ a ∈ (doRestoreAWSDecisions (insertionSlice Aws.ascOrder) 25 twoHistories ([], 0)).1,
      a.Action ≠ Aws.NO_ACTION) ∧
    (doRestoreAWSDecisions (insertionSlice Aws.ascOrder) 25 twoHistories ([], 0)).1.length +
      (doRestoreAWSDecisions (insertionSlice Aws.ascOrder) 25 twoHistories ([], 0)).2
      = twoHistories.length :=
  ⟨by decide, by decide,
    decision_phase_filters_no_action.1 (insertionSlice Aws.ascOrder) 25 twoHistories
      (by decide)⟩

/-! ## The workers

The worker of the GCS side keeps the pointer `doCreateGCP` returns and dereferences nothing:
it sends one result for each action. The worker of the S3 side is evaluated after it. -/

theorem runActionsGCPStep_action {σ : Type}
    (client : σ → GcsRequest → Except String Gcp.Generation × σ) (s : Session σ GcsRequest)
    (action : Gcp.FileAction) : (runActionsGCPStep client s action).1.Action = action := by
  unfold runActionsGCPStep
  split_ifs
  · split <;> rfl
  · split <;> rfl
  · rfl

theorem runActionsGCP_actions {σ : Type}
    (client : σ → GcsRequest → Except String Gcp.Generation × σ)
    (actions : List Gcp.FileAction) :
    ∀ s : Session σ GcsRequest,
      (runActionsGCP client s actions).1.map (fun r => r.Action) = actions := by
  induction actions with
  | nil => intro s; rfl
  | cons action rest ih =>
    intro s
    unfold runActionsGCP
    simp only [List.map_cons, runActionsGCPStep_action, ih]

theorem runActionsGCP_getElem? {σ : Type}
    (client : σ → GcsRequest → Except String Gcp.Generation × σ)
    (actions : List Gcp.FileAction) :
    ∀ (s : Session σ GcsRequest) (i : Nat) (action : Gcp.FileAction),
      actions[i]? = some action →
      (runActionsGCP client s actions).1[i]? =
        some (runActionsGCPStep client (runActionsGCP client s (actions.take i)).2 action).1 := by
  induction actions with
  | nil => intro s i action h; simp at h
  | cons a rest ih =>
    intro s i action h
    cases i with
    | zero =>
      simp only [List.getElem?_cons_zero, Option.some.injEq] at h
      subst h
      simp [runActionsGCP]
    | succ i =>
      simp only [List.getElem?_cons_succ] at h
      have := ih (runActionsGCPStep client s a).2 i action h
      simp only [runActionsGCP, List.take_succ_cons, List.getElem?_cons_succ]
      exact this

theorem runActionsGCPStep_create {σ : Type}
    (client : σ → GcsRequest → Except String Gcp.Generation × σ) (s : Session σ GcsRequest)
    (action : Gcp.FileAction) (h : action.Action = Gcp.CREATE) :
    ∃ request, (runActionsGCPStep client s action).2.sent = s.sent ++ [request] ∧
      (runActionsGCPStep client s action).1.Err.isSome = failed (client s.state request).1 := by
  unfold runActionsGCPStep doCreateGCP Session.call
  simp only [h, if_true]
  refine ⟨GcsRequest.Copy
    (if action.GenerationPreCondition ≠ 0 then
      (BucketObject action.Source.Name).If ⟨action.GenerationPreCondition⟩
      else BucketObject action.Source.Name)
    ((BucketObject action.Source.Name).Generation action.Source.Generation), ?_, ?_⟩
  · cases hc : (client s.state (GcsRequest.Copy
      (if action.GenerationPreCondition ≠ 0 then
        (BucketObject action.Source.Name).If ⟨action.GenerationPreCondition⟩
        else BucketObject action.Source.Name)
      ((BucketObject action.Source.Name).Generation action.Source.Generation))).1 <;>
      simp [hc]
  · cases hc : (client s.state (GcsRequest.Copy
      (if action.GenerationPreCondition ≠ 0 then
        (BucketObject action.Source.Name).If ⟨action.GenerationPreCondition⟩
        else BucketObject action.Source.Name)
      ((BucketObject action.Source.Name).Generation action.Source.Generation))).1 <;>
      simp [hc, failed]

theorem runActionsGCPStep_delete {σ : Type}
    (client : σ → GcsRequest → Except String Gcp.Generation × σ) (s : Session σ GcsRequest)
    (action : Gcp.FileAction) (h : action.Action = Gcp.DELETE) :
    ∃ request, (runActionsGCPStep client s action).2.sent = s.sent ++ [request] ∧
      (runActionsGCPStep client s action).1.Err.isSome = failed (client s.state request).1 := by
  unfold runActionsGCPStep doDeleteGCP Session.call
  have hne : ¬ action.Action = Gcp.CREATE := by rw [h]; decide
  simp only [hne, h, if_true, if_false]
  refine ⟨GcsRequest.Delete
    ((BucketObject action.Source.Name).If ⟨action.GenerationPreCondition⟩), ?_, ?_⟩
  · cases hc : (client s.state (GcsRequest.Delete
      ((BucketObject action.Source.Name).If ⟨action.GenerationPreCondition⟩))).1 <;>
      simp [hc]
  · cases hc : (client s.state (GcsRequest.Delete
      ((BucketObject action.Source.Name).If ⟨action.GenerationPreCondition⟩))).1 <;>
      simp [hc, failed]

theorem runActionsGCPStep_other {σ : Type}
    (client : σ → GcsRequest → Except String Gcp.Generation × σ) (s : Session σ GcsRequest)
    (action : Gcp.FileAction) (h1 : action.Action ≠ Gcp.CREATE)
    (h2 : action.Action ≠ Gcp.DELETE) :
    (runActionsGCPStep client s action).1.Err = none ∧
    (runActionsGCPStep client s action).2.sent = s.sent := by
  unfold runActionsGCPStep
  rw [if_neg h1, if_neg h2]
  exact ⟨rfl, rfl⟩

/-- C23, the code at the failing input. The chunk is a copy followed by a deletion, and the
provider answers the copy with success, an ETag and no version ID. `doCreate` panics on the
nil `VersionId`: the worker sends no result at all, neither for the copy nor for the deletion,
and the only request it has sent is the copy. Against a provider that answers copies with a
version ID the same chunk gives its two results. -/
theorem runActions_panics_on_copy_without_version :
    failed (withoutVersioning 0 (S3Request.CopyObject
      ⟨"b", "a.txt", "b/a.txt?versionId=v1", some 30⟩)).1 = false ∧
    (doCreate id withoutVersioning ⟨0, []⟩ "b" smallCreate).1 = none ∧
    (runActions id withoutVersioning ⟨0, []⟩ "b" [smallCreate, sampleAction]).1 = ([], true) ∧
    (runActions id withoutVersioning ⟨0, []⟩ "b" [smallCreate, sampleAction]).2.sent
      = [S3Request.CopyObject ⟨"b", "a.txt", "b/a.txt?versionId=v1", some 30⟩] ∧
    (runActions id refusingDeletes ⟨0, []⟩ "b" [smallCreate, sampleAction]).1
      = ([⟨smallCreate, ⟨"a.txt", "v9", "e1"⟩, none⟩,
          ⟨sampleAction, CopyResult.zero, some "deleting object \x27a.txt\x27: denied"⟩],
        false) := by
  decide

end BucketRestore
